import Mathlib

/-!
Hive, cross-execution of clients against validators.

A shallow embedding of `validator.go` (`validate`, `validateClients`) and of
`hive.go` (`main`, `mainInHost`).

The Docker daemon, the network and the helper functions of the repository that
live in other files are an explicit environment: every operation is a function
from the state of the outside world to a response and a new state, so the
theorems hold for every behaviour of the engine.  Each model also returns the
list of the calls it issued together with the responses it received; what a
helper such as `createClientContainer` does inside is not part of that list.

Logging, wall-clock measurements and log-file handling have no influence on
control flow and are left out, with one exception: building the per-container
logger slices the container ID (`cc.ID[:8]`, `vc.ID[:8]`), which makes the Go
runtime panic when the ID is shorter than eight bytes.  That panic is modelled.
-/

namespace Hive

/-- Go error values, represented by the text `err.Error()` returns. -/
abbrev Error := String

/-- A file-system path, kept as the list of elements given to `filepath.Join`. -/
abbrev Path := List String

/-- The part of `docker.Container` that a create call hands back to `validate`. -/
structure Container where
  ID : String
deriving DecidableEq, Repr

/-- The part of `docker.Container` that `validate` reads after `InspectContainer`:
`State.Running`, `State.ExitCode` and `NetworkSettings.IPAddress`. -/
structure ContainerInfo where
  running : Bool
  exitCode : Int
  ipAddress : String
deriving DecidableEq, Repr

deriving instance DecidableEq for Except

/-- How a Go function call ends: it returns a value, it panics, or (an artefact of
the bounded model) the readiness loop has used up its iteration budget and is
still polling. -/
inductive Run (α : Type) where
  | returned (a : α)
  | panicked
  | polling
deriving DecidableEq, Repr

/-- The operations `validate` calls, as state transformers over the outside world.
`createClientContainer` and `runContainer` are functions of the repository defined
outside the two files modelled here; the others are Docker client calls, `net.Dial`
and `time.Sleep`. -/
structure Daemon (σ : Type) where
  /-- Models `createClientContainer(daemon, client, validator, nil, overrides, nil)`. -/
  createClientContainer : String → String → List String → σ → Except Error Container × σ
  /-- Models `runContainer(daemon, id, logger, logfile, false)`; the waiter it returns is
  identified by the container ID. -/
  runContainer : String → Path → σ → Except Error Unit × σ
  /-- Models `daemon.InspectContainer(id)`. -/
  inspectContainer : String → σ → Except Error ContainerInfo × σ
  /-- Models `net.Dial("tcp", address)`: `true` when the connection is established. -/
  dial : String → σ → Bool × σ
  /-- Models `time.Sleep(100 * time.Millisecond)`. -/
  sleep : σ → σ
  /-- Models `daemon.CreateContainer` with the given image and environment. -/
  createContainer : String → List String → σ → Except Error Container × σ
  /-- Models `vwaiter.Wait()`. -/
  wait : String → σ → σ
  /-- Models `cwaiter.Close()`. -/
  close : String → σ → σ
  /-- Models `daemon.RemoveContainer` with `Force: true`; the error it returns is dropped
  by the caller. -/
  removeContainer : String → σ → Option Error × σ

/-- One call issued by `validate`, with the response received. -/
inductive Event where
  | createClient (client validator : String) (overrides : List String)
      (r : Except Error Container)
  | runClient (id : String) (logfile : Path) (r : Except Error Unit)
  | inspectClient (id : String) (r : Except Error ContainerInfo)
  | inspectPoll (id : String) (r : Except Error ContainerInfo)
  | dial (address : String) (ok : Bool)
  | sleep
  | createValidator (image : String) (env : List String) (r : Except Error Container)
  | runValidator (id : String) (logfile : Path) (r : Except Error Unit)
  | wait (id : String)
  | inspectValidator (id : String) (r : Except Error ContainerInfo)
  | closeWaiter (id : String)
  | removeContainer (id : String) (err : Option Error)
deriving DecidableEq

/-- A function registered with `defer`. -/
inductive Deferred where
  | removeContainer (id : String)
  | closeWaiter (id : String)
deriving DecidableEq, Repr

/-- What a modelled call produces: how it ended, the state of the outside world, and
the calls it issued in order. -/
structure Result (σ : Type) (α : Type) where
  outcome : Run α
  state : σ
  trace : List Event

/-- Runs the deferred functions, most recently registered first (the head of the list). -/
def runDeferred {σ : Type} (d : Daemon σ) : List Deferred → σ → σ × List Event
  | [], s => (s, [])
  | .removeContainer id :: rest, s =>
    let r := d.removeContainer id s
    let k := runDeferred d rest r.2
    (k.1, Event.removeContainer id r.1 :: k.2)
  | .closeWaiter id :: rest, s =>
    let k := runDeferred d rest (d.close id s)
    (k.1, Event.closeWaiter id :: k.2)

/-- Leaves the function by `return` or by a panic: the deferred functions run, then the
outcome goes to the caller. -/
def leave {σ α : Type} (d : Daemon σ) (defers : List Deferred) (out : Run α)
    (t : List Event) (s : σ) : Result σ α :=
  let k := runDeferred d defers s
  ⟨out, k.1, t ++ k.2⟩

/-- The address string `fmt.Sprintf("%s:%d", ip, 8545)`. -/
def dialAddress (ip : String) : String := ip ++ ":8545"

/-- How the readiness loop of `validate` ends. -/
inductive Probe where
  | online
  | failed (err : Error)
  | polling
deriving DecidableEq, Repr

/-- The readiness loop `for { ... }` of `validate` (lines 102 to 120), bounded by the
number of iterations it may run. -/
def waitOnline {σ : Type} (d : Daemon σ) (id : String) : Nat → σ → Probe × σ × List Event
  | 0, s => (.polling, s, [])
  | fuel + 1, s =>
    match d.inspectContainer id s with
    | (.error err, s1) => (.failed err, s1, [Event.inspectPoll id (.error err)])
    | (.ok c, s1) =>
      if !c.running then
        (.failed "terminated unexpectedly", s1, [Event.inspectPoll id (.ok c)])
      else
        match d.dial (dialAddress c.ipAddress) s1 with
        | (true, s2) =>
          (.online, s2,
            [Event.inspectPoll id (.ok c), Event.dial (dialAddress c.ipAddress) true])
        | (false, s2) =>
          let k := waitOnline d id fuel (d.sleep s2)
          (k.1, k.2.1,
            [Event.inspectPoll id (.ok c), Event.dial (dialAddress c.ipAddress) false,
              Event.sleep] ++ k.2.2)

/-- The function `validate` of `validator.go`.  `fuel` bounds the iterations of the
readiness loop. -/
def validate {σ : Type} (d : Daemon σ) (client validator : String)
    (overrides : List String) (logdir : Path) (fuel : Nat) (s : σ) :
    Result σ (Bool × Option Error) :=
  match d.createClientContainer client validator overrides s with
  | (.error err, s1) =>
    leave d [] (.returned (false, some err))
      [Event.createClient client validator overrides (.error err)] s1
  | (.ok cc, s1) =>
    let t1 := [Event.createClient client validator overrides (.ok cc)]
    if cc.ID.utf8ByteSize < 8 then leave d [] .panicked t1 s1 else
    let defers1 := [Deferred.removeContainer cc.ID]
    match d.runContainer cc.ID (logdir ++ ["client.log"]) s1 with
    | (.error err, s2) =>
      leave d defers1 (.returned (false, some err))
        (t1 ++ [Event.runClient cc.ID (logdir ++ ["client.log"]) (.error err)]) s2
    | (.ok _, s2) =>
      let t2 := t1 ++ [Event.runClient cc.ID (logdir ++ ["client.log"]) (.ok ())]
      let defers2 := Deferred.closeWaiter cc.ID :: defers1
      match d.inspectContainer cc.ID s2 with
      | (.error err, s3) =>
        leave d defers2 (.returned (false, some err))
          (t2 ++ [Event.inspectClient cc.ID (.error err)]) s3
      | (.ok lcc, s3) =>
        let cip := lcc.ipAddress
        let t3 := t2 ++ [Event.inspectClient cc.ID (.ok lcc)]
        match waitOnline d cc.ID fuel s3 with
        | (.polling, s4, tp) => ⟨.polling, s4, t3 ++ tp⟩
        | (.failed err, s4, tp) =>
          leave d defers2 (.returned (false, some err)) (t3 ++ tp) s4
        | (.online, s4, tp) =>
          let t4 := t3 ++ tp
          let env := ["HIVE_CLIENT_IP=" ++ cip]
          match d.createContainer validator env s4 with
          | (.error err, s5) =>
            leave d defers2 (.returned (false, some err))
              (t4 ++ [Event.createValidator validator env (.error err)]) s5
          | (.ok vc, s5) =>
            let t5 := t4 ++ [Event.createValidator validator env (.ok vc)]
            if vc.ID.utf8ByteSize < 8 then leave d defers2 .panicked t5 s5 else
            let defers3 := Deferred.removeContainer vc.ID :: defers2
            match d.runContainer vc.ID (logdir ++ ["validator.log"]) s5 with
            | (.error err, s6) =>
              leave d defers3 (.returned (false, some err))
                (t5 ++ [Event.runValidator vc.ID (logdir ++ ["validator.log"]) (.error err)])
                s6
            | (.ok _, s6) =>
              let s7 := d.wait vc.ID s6
              let t7 := t5 ++ [Event.runValidator vc.ID (logdir ++ ["validator.log"]) (.ok ()),
                Event.wait vc.ID]
              match d.inspectContainer vc.ID s7 with
              | (.error err, s8) =>
                leave d defers3 (.returned (false, some err))
                  (t7 ++ [Event.inspectValidator vc.ID (.error err)]) s8
              | (.ok v, s8) =>
                leave d defers3 (.returned (v.exitCode == 0, none))
                  (t7 ++ [Event.inspectValidator vc.ID (.ok v)]) s8

/-- One call of `validate` made by `validateClients`: the matrix cell it was made for,
how it ended and the calls it issued. -/
structure Cell where
  client : String
  validator : String
  outcome : Run (Bool × Option Error)
  trace : List Event
deriving DecidableEq

/-- The inner Go map `map[string][]string`; a key that was never assigned reads as the
empty slice, as in Go. -/
abbrev Row := String → List String

/-- The Go map `results` of `validateClients`, of type `map[string]map[string][]string`. -/
abbrev Results := String → Option Row

/-- The statement `results[client][key] = append(results[client][key], entry)`.  The entry
`results[client]` has always been assigned when this statement runs. -/
def Results.append (results : Results) (client key entry : String) : Results :=
  let row : Row := (results client).getD (fun _ => [])
  Function.update results client (some (Function.update row key (row key ++ [entry])))

/-- The environment of the whole program: the engine used by `validate`, and the functions
and constants that `hive.go` and `validator.go` use but that are defined elsewhere.  A Go
map is given as the list of its entries; the outer loop of `validateClients` visits the
clients in the order of that list, the inner loop visits the validators in the order
`rangeValidators` gives for the client at hand. -/
structure Host (σ : Type) extends Daemon σ where
  /-- Models `docker.NewClient(endpoint)`: the error, if any. -/
  newClient : String → σ → Option Error × σ
  /-- Models `daemon.Version()`: the error, if any. -/
  version : σ → Option Error × σ
  /-- Models `buildClients(daemon, pattern)`: client names with their images. -/
  buildClients : String → σ → Except Error (List (String × String)) × σ
  /-- Models `buildValidators(daemon, pattern)`: validator names with their images. -/
  buildValidators : String → σ → Except Error (List (String × String)) × σ
  /-- The order in which `for validator, validatorImage := range validators` visits the
  entries of the map during the iteration for the given client; Go leaves it open and it
  may differ from one client to the next. -/
  rangeValidators : String → List (String × String) → List (String × String)
  /-- A `range` over a map visits every entry once. -/
  rangeValidators_perm : ∀ client validators,
    (rangeValidators client validators).Perm validators
  /-- Models `simulateClients(daemon, clientPattern, simulatorPattern, overrides)`. -/
  simulateClients : String → String → List String → σ → (Bool × Option Error) × σ
  /-- Models `benchmarkClients(daemon, clientPattern, benchmarkPattern, overrides)`. -/
  benchmarkClients : String → String → List String → σ → Option Error × σ
  /-- Models `makeGenesisDAG(daemon)`. -/
  makeGenesisDAG : σ → Option Error × σ
  /-- Models `mainInShell(daemon, overrides)`. -/
  mainInShell : List String → σ → Option Error × σ
  /-- The package-level value `hiveLogsFolder`. -/
  hiveLogsFolder : String

/-- The loop variables of `validateClients`, with the list of the calls of `validate`
made so far. -/
structure Matrix (σ : Type) where
  state : σ
  results : Results
  anyFailed : Bool
  cells : List Cell

/-- The directory `filepath.Join(hiveLogsFolder, "validations", fmt.Sprintf("%s[%s]",
strings.Replace(validator, "/", ":", -1), client))`. -/
def logdirOf (hiveLogsFolder validator client : String) : Path :=
  [hiveLogsFolder, "validations",
    String.mk (validator.data.map (fun c => if c = '/' then ':' else c)) ++ "[" ++ client ++ "]"]

/-- The inner loop `for validator, validatorImage := range validators` of
`validateClients`, for one client.  The call `os.RemoveAll(logdir)` only touches the log
files and is left out. -/
def validatorLoop {σ : Type} (h : Host σ) (client clientImage : String)
    (overrides : List String) (fuel : Nat) :
    List (String × String) → Matrix σ → Run Unit × Matrix σ
  | [], m => (.returned (), m)
  | (validator, validatorImage) :: rest, m =>
    let r := validate h.toDaemon clientImage validatorImage overrides
      (logdirOf h.hiveLogsFolder validator client) fuel m.state
    let cell : Cell := ⟨client, validator, r.outcome, r.trace⟩
    match r.outcome with
    | .returned (pass, err) =>
      if pass then
        validatorLoop h client clientImage overrides fuel rest
          ⟨r.state, m.results.append client "pass" validator, m.anyFailed, m.cells ++ [cell]⟩
      else
        let fail := match err with
          | some e => validator ++ ": " ++ e
          | none => validator
        validatorLoop h client clientImage overrides fuel rest
          ⟨r.state, m.results.append client "fail" fail, true, m.cells ++ [cell]⟩
    | .panicked => (.panicked, ⟨r.state, m.results, m.anyFailed, m.cells ++ [cell]⟩)
    | .polling => (.polling, ⟨r.state, m.results, m.anyFailed, m.cells ++ [cell]⟩)

/-- The outer loop `for client, clientImage := range clients` of `validateClients`. -/
def clientLoop {σ : Type} (h : Host σ) (validators : List (String × String))
    (overrides : List String) (fuel : Nat) :
    List (String × String) → Matrix σ → Run Unit × Matrix σ
  | [], m => (.returned (), m)
  | (client, clientImage) :: rest, m =>
    let m1 : Matrix σ :=
      ⟨m.state, Function.update m.results client (some (fun _ => [])), m.anyFailed, m.cells⟩
    match validatorLoop h client clientImage overrides fuel
        (h.rangeValidators client validators) m1 with
    | (.returned _, m2) => clientLoop h validators overrides fuel rest m2
    | (.panicked, m2) => (.panicked, m2)
    | (.polling, m2) => (.polling, m2)

/-- What `validateClients` produces: how it ended, the state of the outside world, the
table it printed (if it got that far) and the calls of `validate` it made. -/
structure Validation (σ : Type) where
  outcome : Run (Bool × Option Error)
  state : σ
  printed : Option Results
  cells : List Cell

/-- The function `validateClients` of `validator.go`.  The table is printed, not returned;
the model hands it out as `printed`. -/
def validateClients {σ : Type} (h : Host σ) (clientPattern validatorPattern : String)
    (overrides : List String) (fuel : Nat) (s : σ) : Validation σ :=
  match h.buildClients clientPattern s with
  | (.error err, s1) => ⟨.returned (false, some err), s1, none, []⟩
  | (.ok clients, s1) =>
    match h.buildValidators validatorPattern s1 with
    | (.error err, s2) => ⟨.returned (false, some err), s2, none, []⟩
    | (.ok validators, s2) =>
      match clientLoop h validators overrides fuel clients ⟨s2, fun _ => none, false, []⟩ with
      | (.returned _, m) => ⟨.returned (m.anyFailed, none), m.state, some m.results, m.cells⟩
      | (.panicked, m) => ⟨.panicked, m.state, none, m.cells⟩
      | (.polling, m) => ⟨.polling, m.state, none, m.cells⟩

/-- The call of `validate` returned, rather than panicking or still polling. -/
def Cell.returned (c : Cell) : Bool :=
  match c.outcome with
  | .returned _ => true
  | _ => false

/-- The call of `validate` returned the verdict pass. -/
def Cell.passed (c : Cell) : Bool :=
  match c.outcome with
  | .returned (true, _) => true
  | _ => false

/-- The text recorded in the "fail" list for a cell, as the specification words it:
the validator name, followed by a colon, a blank and the error text when the call of
`validate` returned an error. -/
def Cell.failEntry (c : Cell) : String :=
  match c.outcome with
  | .returned (_, some e) => c.validator ++ ": " ++ e
  | _ => c.validator

/-- The cells of the matrix, clients times validators, by name. -/
def allCells (clients validators : List (String × String)) : List (String × String) :=
  clients.flatMap fun c => validators.map fun v => (c.1, v.1)

/-- The cells of the matrix in the order in which the two nested loops visit them: clients
outside, validators inside in the order given for the client. -/
def matrixCells (order : String → List (String × String) → List (String × String))
    (clients validators : List (String × String)) : List (String × String) :=
  clients.flatMap fun c => (order c.1 validators).map fun v => (c.1, v.1)

/-- The calls of `validate` made for the client `name`, in the order they were made. -/
def cellsOf (name : String) (cells : List Cell) : List Cell :=
  cells.filter fun c => decide (c.client = name)

/-- The command-line flags read by `main` and `mainInHost`. -/
structure Flags where
  dockerEndpoint : String
  noShellContainer : Bool
  clientPattern : String
  overrideFiles : String
  smokeFlag : Bool
  validatorPattern : String
  simulatorPattern : String
  benchmarkPattern : String

/-- The function `mainInHost` of `hive.go`. -/
def mainInHost {σ : Type} (h : Host σ) (f : Flags) (overrides : List String) (fuel : Nat)
    (s : σ) : Run (Bool × Option Error) × σ :=
  let anyFailed := false
  if f.smokeFlag then
    let v := validateClients h f.clientPattern "smoke/" overrides fuel s
    match v.outcome with
    | .panicked => (.panicked, v.state)
    | .polling => (.polling, v.state)
    | .returned (failed, err) =>
      let anyFailed := failed || anyFailed
      match err with
      | some e => (.returned (true, some e), v.state)
      | none =>
        match h.simulateClients f.clientPattern "smoke/" overrides v.state with
        | ((failed, err), s2) =>
          let anyFailed := failed || anyFailed
          match err with
          | some e => (.returned (true, some e), s2)
          | none =>
            match h.benchmarkClients f.clientPattern "smoke/" overrides s2 with
            | (some e, s3) => (.returned (true, some e), s3)
            | (none, s3) => (.returned (anyFailed, none), s3)
  else
    let step1 : Run (Bool × Option Error) × σ :=
      if f.validatorPattern ≠ "" then
        let v := validateClients h f.clientPattern f.validatorPattern overrides fuel s
        match v.outcome with
        | .panicked => (.panicked, v.state)
        | .polling => (.polling, v.state)
        | .returned (failed, err) =>
          match err with
          | some e => (.returned (true, some e), v.state)
          | none => (.returned (failed || anyFailed, none), v.state)
      else (.returned (anyFailed, none), s)
    match step1 with
    | (.panicked, s1) => (.panicked, s1)
    | (.polling, s1) => (.polling, s1)
    | (.returned (b, some e), s1) => (.returned (b, some e), s1)
    | (.returned (anyFailed, none), s1) =>
      let step2 : (Bool × Option Error) × σ :=
        if f.simulatorPattern ≠ "" then
          match h.makeGenesisDAG s1 with
          | (some e, s2) => ((true, some e), s2)
          | (none, s2) =>
            match h.simulateClients f.clientPattern f.simulatorPattern overrides s2 with
            | ((failed, err), s3) =>
              match err with
              | some e => ((true, some e), s3)
              | none => ((failed || anyFailed, none), s3)
        else ((anyFailed, none), s1)
      match step2 with
      | ((b, some e), s2) => (.returned (b, some e), s2)
      | ((anyFailed, none), s2) =>
        if f.benchmarkPattern ≠ "" then
          match h.benchmarkClients f.clientPattern f.benchmarkPattern overrides s2 with
          | (some e, s3) => (.returned (true, some e), s3)
          | (none, s3) => (.returned (anyFailed, none), s3)
        else (.returned (anyFailed, none), s2)

/-- The function `main` of `hive.go`.  `returned c` stands for the end of the process with
exit status `c`: `0` when `main` returns, the argument of `os.Exit` otherwise.  The call
`log15.Crit` writes a log record and goes on; it does not end the process. -/
def main {σ : Type} (h : Host σ) (f : Flags) (fuel : Nat) (s : σ) : Run Int × σ :=
  match h.newClient f.dockerEndpoint s with
  | (some _, s1) => (.returned 0, s1)
  | (none, s1) =>
    match h.version s1 with
    | (some _, s2) => (.returned 0, s2)
    | (none, s2) =>
      let overrides := if f.overrideFiles ≠ "" then f.overrideFiles.splitOn "," else []
      let r : Run (Bool × Option Error) × σ :=
        if f.noShellContainer then mainInHost h f overrides fuel s2
        else
          match h.mainInShell overrides s2 with
          | (fail, s3) => (.returned (false, fail), s3)
      match r with
      | (.panicked, s3) => (.panicked, s3)
      | (.polling, s3) => (.polling, s3)
      | (.returned (anyFailed, fail), s3) =>
        if fail.isSome || anyFailed then (.returned (-1), s3) else (.returned 0, s3)

/-- A call that reports the failure of a step of the pairing: an error from the engine,
or an inspection inside the readiness loop that finds the client no longer running. -/
def Event.stepFailed : Event → Bool
  | .createClient _ _ _ (.error _) => true
  | .runClient _ _ (.error _) => true
  | .inspectClient _ (.error _) => true
  | .inspectPoll _ (.error _) => true
  | .inspectPoll _ (.ok c) => !c.running
  | .createValidator _ _ (.error _) => true
  | .runValidator _ _ (.error _) => true
  | .inspectValidator _ (.error _) => true
  | _ => false

/-- The calls made by the readiness loop. -/
def Event.isProbe : Event → Bool
  | .inspectPoll _ _ => true
  | .dial _ _ => true
  | .sleep => true
  | _ => false

/-- The IDs given to `RemoveContainer`, in the order of the calls. -/
def removals (t : List Event) : List String :=
  t.filterMap fun
    | .removeContainer id _ => some id
    | _ => none

/-- The IDs of the client containers that were created. -/
def createdClients (t : List Event) : List String :=
  t.filterMap fun
    | .createClient _ _ _ (.ok c) => some c.ID
    | _ => none

/-- The IDs of the validator containers that were created. -/
def createdValidators (t : List Event) : List String :=
  t.filterMap fun
    | .createValidator _ _ (.ok c) => some c.ID
    | _ => none

/-- The connection attempts: the address dialled and whether the connection succeeded. -/
def dials (t : List Event) : List (String × Bool) :=
  t.filterMap fun
    | .dial a ok => some (a, ok)
    | _ => none

/-- The environments given to `CreateContainer` for the validator. -/
def validatorEnvs (t : List Event) : List (List String) :=
  t.filterMap fun
    | .createValidator _ env _ => some env
    | _ => none

/-- The answers to the final inspection of the validator container. -/
def verdicts (t : List Event) : List (Except Error ContainerInfo) :=
  t.filterMap fun
    | .inspectValidator _ r => some r
    | _ => none

/-- The inspections made inside the readiness loop. -/
def polls (t : List Event) : List (Except Error ContainerInfo) :=
  t.filterMap fun
    | .inspectPoll _ r => some r
    | _ => none

/-- The state of the outside world after one round of the readiness loop that started in
`s` and went on to sleep. -/
def afterPoll {σ : Type} (d : Daemon σ) (id : String) (s : σ) : σ :=
  match d.inspectContainer id s with
  | (.ok c, s1) => d.sleep (d.dial (dialAddress c.ipAddress) s1).2
  | (.error _, s1) => s1

/-- The state of the outside world after `n` such rounds. -/
def pollState {σ : Type} (d : Daemon σ) (id : String) (s : σ) : Nat → σ
  | 0 => s
  | n + 1 => pollState d id (afterPoll d id s) n

/-- In state `s` the inspection reports the container running and the connection to port
8545 fails. -/
def pollFails {σ : Type} (d : Daemon σ) (id : String) (s : σ) : Bool :=
  match d.inspectContainer id s with
  | (.ok c, s1) => c.running && !(d.dial (dialAddress c.ipAddress) s1).1
  | (.error _, _) => false

/-- In state `s` the inspection reports the container not running. -/
def pollTerminated {σ : Type} (d : Daemon σ) (id : String) (s : σ) : Bool :=
  match d.inspectContainer id s with
  | (.ok c, _) => !c.running
  | (.error _, _) => false

/-- The runs of the readiness loop on the container `id`: how the loop ended and the calls
it issued. -/
inductive PollRun (id : String) : Probe → List Event → Prop where
  | budget : PollRun id .polling []
  | inspectFailed (err : Error) :
      PollRun id (.failed err) [Event.inspectPoll id (.error err)]
  | terminated (c : ContainerInfo) (hc : c.running = false) :
      PollRun id (.failed "terminated unexpectedly") [Event.inspectPoll id (.ok c)]
  | connected (c : ContainerInfo) (hc : c.running = true) :
      PollRun id .online
        [Event.inspectPoll id (.ok c), Event.dial (dialAddress c.ipAddress) true]
  | retry (c : ContainerInfo) (hc : c.running = true) (p : Probe) (t : List Event)
      (k : PollRun id p t) :
      PollRun id p
        ([Event.inspectPoll id (.ok c), Event.dial (dialAddress c.ipAddress) false,
          Event.sleep] ++ t)

/-- The calls made up to and including the first inspection of the started client. -/
def clientStarted (client validator : String) (overrides : List String) (logdir : Path)
    (cc : Container) (lcc : ContainerInfo) : List Event :=
  [Event.createClient client validator overrides (.ok cc),
    Event.runClient cc.ID (logdir ++ ["client.log"]) (.ok ()),
    Event.inspectClient cc.ID (.ok lcc)]

/-- The runs of `validate`, one constructor for each way of leaving the function: how it
ended and the calls it issued. -/
inductive ValidateRun (client validator : String) (overrides : List String) (logdir : Path) :
    Run (Bool × Option Error) → List Event → Prop where
  | createClientFailed (err : Error) :
      ValidateRun client validator overrides logdir (.returned (false, some err))
        [Event.createClient client validator overrides (.error err)]
  | clientIdShort (cc : Container) (hcc : cc.ID.utf8ByteSize < 8) :
      ValidateRun client validator overrides logdir .panicked
        [Event.createClient client validator overrides (.ok cc)]
  | runClientFailed (cc : Container) (hcc : ¬ cc.ID.utf8ByteSize < 8) (err : Error)
      (rc : Option Error) :
      ValidateRun client validator overrides logdir (.returned (false, some err))
        [Event.createClient client validator overrides (.ok cc),
          Event.runClient cc.ID (logdir ++ ["client.log"]) (.error err),
          Event.removeContainer cc.ID rc]
  | inspectClientFailed (cc : Container) (hcc : ¬ cc.ID.utf8ByteSize < 8) (err : Error)
      (rc : Option Error) :
      ValidateRun client validator overrides logdir (.returned (false, some err))
        [Event.createClient client validator overrides (.ok cc),
          Event.runClient cc.ID (logdir ++ ["client.log"]) (.ok ()),
          Event.inspectClient cc.ID (.error err),
          Event.closeWaiter cc.ID, Event.removeContainer cc.ID rc]
  | stillPolling (cc : Container) (hcc : ¬ cc.ID.utf8ByteSize < 8) (lcc : ContainerInfo)
      (tp : List Event) (hp : PollRun cc.ID .polling tp) :
      ValidateRun client validator overrides logdir .polling
        (clientStarted client validator overrides logdir cc lcc ++ tp)
  | probeFailed (cc : Container) (hcc : ¬ cc.ID.utf8ByteSize < 8) (lcc : ContainerInfo)
      (tp : List Event) (err : Error) (hp : PollRun cc.ID (.failed err) tp)
      (rc : Option Error) :
      ValidateRun client validator overrides logdir (.returned (false, some err))
        (clientStarted client validator overrides logdir cc lcc ++ tp ++
          [Event.closeWaiter cc.ID, Event.removeContainer cc.ID rc])
  | createValidatorFailed (cc : Container) (hcc : ¬ cc.ID.utf8ByteSize < 8)
      (lcc : ContainerInfo) (tp : List Event) (hp : PollRun cc.ID .online tp) (err : Error)
      (rc : Option Error) :
      ValidateRun client validator overrides logdir (.returned (false, some err))
        (clientStarted client validator overrides logdir cc lcc ++ tp ++
          [Event.createValidator validator ["HIVE_CLIENT_IP=" ++ lcc.ipAddress] (.error err),
            Event.closeWaiter cc.ID, Event.removeContainer cc.ID rc])
  | validatorIdShort (cc : Container) (hcc : ¬ cc.ID.utf8ByteSize < 8)
      (lcc : ContainerInfo) (tp : List Event) (hp : PollRun cc.ID .online tp)
      (vc : Container) (hvc : vc.ID.utf8ByteSize < 8) (rc : Option Error) :
      ValidateRun client validator overrides logdir .panicked
        (clientStarted client validator overrides logdir cc lcc ++ tp ++
          [Event.createValidator validator ["HIVE_CLIENT_IP=" ++ lcc.ipAddress] (.ok vc),
            Event.closeWaiter cc.ID, Event.removeContainer cc.ID rc])
  | runValidatorFailed (cc : Container) (hcc : ¬ cc.ID.utf8ByteSize < 8)
      (lcc : ContainerInfo) (tp : List Event) (hp : PollRun cc.ID .online tp)
      (vc : Container) (hvc : ¬ vc.ID.utf8ByteSize < 8) (err : Error)
      (rv rc : Option Error) :
      ValidateRun client validator overrides logdir (.returned (false, some err))
        (clientStarted client validator overrides logdir cc lcc ++ tp ++
          [Event.createValidator validator ["HIVE_CLIENT_IP=" ++ lcc.ipAddress] (.ok vc),
            Event.runValidator vc.ID (logdir ++ ["validator.log"]) (.error err),
            Event.removeContainer vc.ID rv,
            Event.closeWaiter cc.ID, Event.removeContainer cc.ID rc])
  | inspectValidatorFailed (cc : Container) (hcc : ¬ cc.ID.utf8ByteSize < 8)
      (lcc : ContainerInfo) (tp : List Event) (hp : PollRun cc.ID .online tp)
      (vc : Container) (hvc : ¬ vc.ID.utf8ByteSize < 8) (err : Error)
      (rv rc : Option Error) :
      ValidateRun client validator overrides logdir (.returned (false, some err))
        (clientStarted client validator overrides logdir cc lcc ++ tp ++
          [Event.createValidator validator ["HIVE_CLIENT_IP=" ++ lcc.ipAddress] (.ok vc),
            Event.runValidator vc.ID (logdir ++ ["validator.log"]) (.ok ()),
            Event.wait vc.ID,
            Event.inspectValidator vc.ID (.error err),
            Event.removeContainer vc.ID rv,
            Event.closeWaiter cc.ID, Event.removeContainer cc.ID rc])
  | finished (cc : Container) (hcc : ¬ cc.ID.utf8ByteSize < 8)
      (lcc : ContainerInfo) (tp : List Event) (hp : PollRun cc.ID .online tp)
      (vc : Container) (hvc : ¬ vc.ID.utf8ByteSize < 8) (v : ContainerInfo)
      (rv rc : Option Error) :
      ValidateRun client validator overrides logdir (.returned (v.exitCode == 0, none))
        (clientStarted client validator overrides logdir cc lcc ++ tp ++
          [Event.createValidator validator ["HIVE_CLIENT_IP=" ++ lcc.ipAddress] (.ok vc),
            Event.runValidator vc.ID (logdir ++ ["validator.log"]) (.ok ()),
            Event.wait vc.ID,
            Event.inspectValidator vc.ID (.ok v),
            Event.removeContainer vc.ID rv,
            Event.closeWaiter cc.ID, Event.removeContainer cc.ID rc])

/-! ## Scripted engines

Small engines with a fixed behaviour, on which the models can be run. -/

/-- An engine on which every pairing goes through, with the exit code of the validator
container given by a table indexed by client image and validator image; an error in the
table makes the creation of the validator container fail.  The state holds the images of
the containers created last. -/
def tableEngine (table : String → String → Except Error Int) : Daemon (String × String) where
  createClientContainer := fun client _ _ s => (.ok ⟨"client-" ++ client⟩, (client, s.2))
  runContainer := fun _ _ s => (.ok (), s)
  inspectContainer := fun id s =>
    if id = "client-" ++ s.1 then (.ok ⟨true, 0, "172.17.0.2"⟩, s)
    else
      match table s.1 s.2 with
      | .ok code => (.ok ⟨false, code, ""⟩, s)
      | .error e => (.error e, s)
  dial := fun address s => (decide (address = "172.17.0.2:8545"), s)
  sleep := fun s => s
  createContainer := fun image _ s =>
    match table s.1 image with
    | .ok _ => (.ok ⟨"validator-" ++ image⟩, (s.1, image))
    | .error e => (.error e, s)
  wait := fun _ s => s
  close := fun _ s => s
  removeContainer := fun _ s => (none, s)

/-- The host around `tableEngine`, with two clients and two validators; the validators
are visited in the order X, Y for client A and Y, X for client B. -/
def tableHost (table : String → String → Except Error Int) : Host (String × String) where
  toDaemon := tableEngine table
  newClient := fun _ s => (none, s)
  version := fun s => (none, s)
  buildClients := fun _ s => (.ok [("A", "img-A"), ("B", "img-B")], s)
  buildValidators := fun _ s => (.ok [("X", "img-X"), ("Y", "img-Y")], s)
  rangeValidators := fun client validators =>
    if client = "B" then validators.reverse else validators
  rangeValidators_perm := fun client validators => by
    by_cases hc : client = "B"
    · simpa [hc] using List.reverse_perm validators
    · simp [hc]
  simulateClients := fun _ _ _ s => ((false, none), s)
  benchmarkClients := fun _ _ _ s => (none, s)
  makeGenesisDAG := fun s => (none, s)
  mainInShell := fun _ s => (none, s)
  hiveLogsFolder := "workspace/logs"

/-- The validator exits 0 on A with X and on B with Y, and 1 on the other two cells. -/
def diagonalTable (client validator : String) : Except Error Int :=
  if (client = "img-A" ∧ validator = "img-X") ∨ (client = "img-B" ∧ validator = "img-Y")
  then .ok 0 else .ok 1

/-- As `diagonalTable`, but the validator container for B with X cannot be created. -/
def brokenCellTable (client validator : String) : Except Error Int :=
  if client = "img-B" ∧ validator = "img-X" then .error "no such image"
  else diagonalTable client validator

/-- Every validator exits with code 7. -/
def sevenTable (_client _validator : String) : Except Error Int := .ok 7

/-- An engine whose state counts the inspections made.  The first inspection reports no
address yet, later ones the address 172.17.0.2; the container is reported running for the
inspections numbered up to `alive`; port 8545 of 172.17.0.2 accepts connections exactly
when `listening` is set. -/
def probeEngine (alive : Nat) (listening : Bool) : Daemon Nat where
  createClientContainer := fun client _ _ s => (.ok ⟨"client-" ++ client⟩, s)
  runContainer := fun _ _ s => (.ok (), s)
  inspectContainer := fun _ s =>
    (.ok ⟨decide (s ≤ alive), 0, if s = 0 then "" else "172.17.0.2"⟩, s + 1)
  dial := fun address s => (listening && decide (address = "172.17.0.2:8545"), s)
  sleep := fun s => s
  createContainer := fun image _ s => (.ok ⟨"validator-" ++ image⟩, s)
  wait := fun _ s => s
  close := fun _ s => s
  removeContainer := fun _ s => (none, s)

/-- An engine that cannot be reached: every call fails. -/
def offlineEngine : Daemon Unit where
  createClientContainer := fun _ _ _ s => (.error "cannot connect to the Docker daemon", s)
  runContainer := fun _ _ s => (.error "cannot connect to the Docker daemon", s)
  inspectContainer := fun _ s => (.error "cannot connect to the Docker daemon", s)
  dial := fun _ s => (false, s)
  sleep := fun s => s
  createContainer := fun _ _ s => (.error "cannot connect to the Docker daemon", s)
  wait := fun _ s => s
  close := fun _ s => s
  removeContainer := fun _ s => (some "cannot connect to the Docker daemon", s)

/-- The host around `offlineEngine`: creating the Docker client already fails. -/
def offlineHost : Host Unit where
  toDaemon := offlineEngine
  newClient := fun _ s => (some "invalid endpoint", s)
  version := fun s => (some "cannot connect to the Docker daemon", s)
  buildClients := fun _ s => (.error "cannot connect to the Docker daemon", s)
  buildValidators := fun _ s => (.error "cannot connect to the Docker daemon", s)
  rangeValidators := fun _ validators => validators
  rangeValidators_perm := fun _ validators => List.Perm.refl validators
  simulateClients := fun _ _ _ s => ((false, some "cannot connect to the Docker daemon"), s)
  benchmarkClients := fun _ _ _ s => (some "cannot connect to the Docker daemon", s)
  makeGenesisDAG := fun s => (some "cannot connect to the Docker daemon", s)
  mainInShell := fun _ s => (some "cannot connect to the Docker daemon", s)
  hiveLogsFolder := "workspace/logs"

/-- The flags of a run on the host itself with the default patterns. -/
def hostFlags : Flags where
  dockerEndpoint := "unix:///var/run/docker.sock"
  noShellContainer := true
  clientPattern := ":master"
  overrideFiles := ""
  smokeFlag := false
  validatorPattern := "."
  simulatorPattern := ""
  benchmarkPattern := ""

/-- A host on which the Docker client is created but the daemon does not answer. -/
def silentHost : Host Unit :=
  { offlineHost with newClient := fun _ s => (none, s) }

/-- The pairing of client A with validator X on `diagonalTable`: the validator exits 0. -/
def passingRun : Result (String × String) (Bool × Option Error) :=
  validate (tableEngine diagonalTable) "img-A" "img-X" []
    (logdirOf "workspace/logs" "X" "A") 1 ("", "")

/-- The pairing of client A with validator Y on `diagonalTable`: the validator exits 1. -/
def failingRun : Result (String × String) (Bool × Option Error) :=
  validate (tableEngine diagonalTable) "img-A" "img-Y" []
    (logdirOf "workspace/logs" "Y" "A") 1 ("", "")

/-- A pairing on the engine that cannot be reached. -/
def offlineRun : Result Unit (Bool × Option Error) :=
  validate offlineEngine "img-A" "img-X" [] (logdirOf "workspace/logs" "X" "A") 1 ()

/-- A pairing in which the client never opens its port and is found dead by the third
inspection of the readiness loop, run with the given budget of loop rounds. -/
def terminatedRun (fuel : Nat) : Result Nat (Bool × Option Error) :=
  validate (probeEngine 2 false) "img-A" "img-X" []
    (logdirOf "workspace/logs" "X" "A") fuel 0

/-- A pairing in which the first inspection of the client reports no address yet and the
inspection inside the readiness loop reports 172.17.0.2, where the port is open. -/
def lateAddressRun : Result Nat (Bool × Option Error) :=
  validate (probeEngine 9 true) "img-A" "img-X" []
    (logdirOf "workspace/logs" "X" "A") 1 0

/-- The matrix of A, B against X, Y on `diagonalTable`. -/
def diagonalMatrix : Validation (String × String) :=
  validateClients (tableHost diagonalTable) ":master" "." [] 1 ("", "")

/-- The matrix of A, B against X, Y on `brokenCellTable`. -/
def brokenCellMatrix : Validation (String × String) :=
  validateClients (tableHost brokenCellTable) ":master" "." [] 1 ("", "")

/-- The matrix of A, B against X, Y on `sevenTable`. -/
def sevenMatrix : Validation (String × String) :=
  validateClients (tableHost sevenTable) ":master" "." [] 1 ("", "")

/-- The "pass" and "fail" lists printed for a client, if the table was printed and has an
entry for it. -/
def Validation.lists {σ : Type} (v : Validation σ) (client : String) :
    Option (List String × List String) :=
  (v.printed.bind fun table => table client).map fun row => (row "pass", row "fail")

/-! ## The readiness loop and the shape of every run -/

theorem waitOnline_pollRun {σ : Type} (d : Daemon σ) (id : String) (fuel : Nat) (s : σ) :
    PollRun id (waitOnline d id fuel s).1 (waitOnline d id fuel s).2.2 := by
  induction fuel generalizing s with
  | zero => exact .budget
  | succ n ih =>
    unfold waitOnline
    rcases h1 : d.inspectContainer id s with ⟨_ | c, s1⟩
    · exact .inspectFailed _
    · cases hc : c.running
      · simpa [hc] using PollRun.terminated c hc
      · rcases h2 : d.dial (dialAddress c.ipAddress) s1 with ⟨_ | _, s2⟩
        · simpa [hc, h2] using PollRun.retry c hc _ _ (ih (d.sleep s2))
        · simpa [hc, h2] using PollRun.connected c hc

theorem validate_run {σ : Type} (d : Daemon σ) (client validator : String)
    (overrides : List String) (logdir : Path) (fuel : Nat) (s : σ) :
    ValidateRun client validator overrides logdir
      (validate d client validator overrides logdir fuel s).outcome
      (validate d client validator overrides logdir fuel s).trace := by
  unfold validate
  rcases h1 : d.createClientContainer client validator overrides s with ⟨err | cc, s1⟩
  · exact .createClientFailed err
  by_cases hcc : cc.ID.utf8ByteSize < 8
  · simpa [hcc, leave, runDeferred] using ValidateRun.clientIdShort cc hcc
  rcases h2 : d.runContainer cc.ID (logdir ++ ["client.log"]) s1 with ⟨err | _, s2⟩
  · simpa [hcc, h2, leave, runDeferred] using ValidateRun.runClientFailed cc hcc err _
  rcases h3 : d.inspectContainer cc.ID s2 with ⟨err | lcc, s3⟩
  · simpa [hcc, h2, h3, leave, runDeferred] using
      ValidateRun.inspectClientFailed cc hcc err _
  have hp := waitOnline_pollRun d cc.ID fuel s3
  rcases h4 : waitOnline d cc.ID fuel s3 with ⟨p, s4, tp⟩
  rw [h4] at hp
  cases p with
  | polling =>
    simpa [hcc, h2, h3, h4, leave, runDeferred, clientStarted] using
      ValidateRun.stillPolling cc hcc lcc tp hp
  | failed err =>
    simpa [hcc, h2, h3, h4, leave, runDeferred, clientStarted] using
      ValidateRun.probeFailed cc hcc lcc tp err hp _
  | online =>
    rcases h5 : d.createContainer validator ["HIVE_CLIENT_IP=" ++ lcc.ipAddress] s4 with
      ⟨err | vc, s5⟩
    · simpa [hcc, h2, h3, h4, h5, leave, runDeferred, clientStarted] using
        ValidateRun.createValidatorFailed cc hcc lcc tp hp err _
    by_cases hvc : vc.ID.utf8ByteSize < 8
    · simpa [hcc, hvc, h2, h3, h4, h5, leave, runDeferred, clientStarted] using
        ValidateRun.validatorIdShort cc hcc lcc tp hp vc hvc _
    rcases h6 : d.runContainer vc.ID (logdir ++ ["validator.log"]) s5 with ⟨err | _, s6⟩
    · simpa [hcc, hvc, h2, h3, h4, h5, h6, leave, runDeferred, clientStarted] using
        ValidateRun.runValidatorFailed cc hcc lcc tp hp vc hvc err _ _
    rcases h7 : d.inspectContainer vc.ID (d.wait vc.ID s6) with ⟨err | v, s8⟩
    · simpa [hcc, hvc, h2, h3, h4, h5, h6, h7, leave, runDeferred, clientStarted] using
        ValidateRun.inspectValidatorFailed cc hcc lcc tp hp vc hvc err _ _
    · simpa [hcc, hvc, h2, h3, h4, h5, h6, h7, leave, runDeferred, clientStarted] using
        ValidateRun.finished cc hcc lcc tp hp vc hvc v _ _

/-! ## Facts about the calls of the readiness loop -/

theorem PollRun.isProbe {id : String} {p : Probe} {t : List Event} (h : PollRun id p t) :
    ∀ e ∈ t, e.isProbe = true := by
  induction h <;> simp_all [Event.isProbe]

theorem PollRun.removals_eq {id : String} {p : Probe} {t : List Event} (h : PollRun id p t) :
    removals t = [] := by
  induction h <;> simp_all [removals]

theorem PollRun.createdClients_eq {id : String} {p : Probe} {t : List Event}
    (h : PollRun id p t) : createdClients t = [] := by
  induction h <;> simp_all [createdClients]

theorem PollRun.createdValidators_eq {id : String} {p : Probe} {t : List Event}
    (h : PollRun id p t) : createdValidators t = [] := by
  induction h <;> simp_all [createdValidators]

theorem PollRun.online_ok {id : String} {p : Probe} {t : List Event} (h : PollRun id p t) :
    p = .online → ∀ e ∈ t, e.stepFailed = false := by
  induction h <;> simp_all [Event.stepFailed]

theorem PollRun.failed_step {id : String} {p : Probe} {t : List Event} (h : PollRun id p t) :
    (∃ err, p = .failed err) → ∃ e ∈ t, e.stepFailed = true := by
  induction h <;> simp_all [Event.stepFailed]

theorem PollRun.not_inspectValidator {id : String} {p : Probe} {t : List Event}
    (h : PollRun id p t) (id1 : String) (r : Except Error ContainerInfo) :
    Event.inspectValidator id1 r ∉ t :=
  fun hm => by simpa [Event.isProbe] using h.isProbe _ hm

theorem PollRun.not_createValidator {id : String} {p : Probe} {t : List Event}
    (h : PollRun id p t) (image : String) (env : List String) (r : Except Error Container) :
    Event.createValidator image env r ∉ t :=
  fun hm => by simpa [Event.isProbe] using h.isProbe _ hm

/-! ## The verdict -/

/-- On every run of `validate`: the verdict is pass exactly when no step failed and the
final inspection of the validator container reported exit code 0; and whenever that
inspection succeeded, no step had failed and the exit code decides the verdict. -/
theorem ValidateRun.verdict {client validator : String} {overrides : List String}
    {logdir : Path} {o : Run (Bool × Option Error)} {t : List Event}
    (hr : ValidateRun client validator overrides logdir o t) :
    ((∃ err, o = .returned (true, err)) ↔
      ((∀ e ∈ t, e.stepFailed = false) ∧
        ∃ id v, Event.inspectValidator id (.ok v) ∈ t ∧ v.exitCode = 0)) ∧
    (∀ id v, Event.inspectValidator id (.ok v) ∈ t →
      (∀ e ∈ t, e.stepFailed = false) ∧
      (v.exitCode = 0 → o = .returned (true, none)) ∧
      (v.exitCode ≠ 0 → o = .returned (false, none))) := by
  cases hr with
  | createClientFailed err => simp [Event.stepFailed]
  | clientIdShort cc hcc => simp [Event.stepFailed]
  | runClientFailed cc hcc err rc => simp [Event.stepFailed]
  | inspectClientFailed cc hcc err rc => simp [Event.stepFailed]
  | stillPolling cc hcc lcc tp hp =>
    have hni := hp.not_inspectValidator
    simp [clientStarted, hni]
  | probeFailed cc hcc lcc tp err hp rc =>
    have hni := hp.not_inspectValidator
    simp [clientStarted, hni]
  | createValidatorFailed cc hcc lcc tp hp err rc =>
    have hni := hp.not_inspectValidator
    simp [clientStarted, hni]
  | validatorIdShort cc hcc lcc tp hp vc hvc rc =>
    have hni := hp.not_inspectValidator
    simp [clientStarted, hni]
  | runValidatorFailed cc hcc lcc tp hp vc hvc err rv rc =>
    have hni := hp.not_inspectValidator
    simp [clientStarted, hni]
  | inspectValidatorFailed cc hcc lcc tp hp vc hvc err rv rc =>
    have hni := hp.not_inspectValidator
    simp [clientStarted, hni]
  | finished cc hcc lcc tp hp vc hvc v rv rc =>
    have hni := hp.not_inspectValidator
    have hok := hp.online_ok rfl
    have hall : ∀ e ∈ clientStarted client validator overrides logdir cc lcc ++ tp ++
        [Event.createValidator validator ["HIVE_CLIENT_IP=" ++ lcc.ipAddress] (.ok vc),
          Event.runValidator vc.ID (logdir ++ ["validator.log"]) (.ok ()),
          Event.wait vc.ID,
          Event.inspectValidator vc.ID (.ok v),
          Event.removeContainer vc.ID rv,
          Event.closeWaiter cc.ID, Event.removeContainer cc.ID rc],
        e.stepFailed = false := by
      intro e he
      simp only [clientStarted, List.mem_append, List.mem_cons, List.mem_singleton,
        List.not_mem_nil, or_false] at he
      casesm* _ ∨ _
      all_goals first
        | exact hok _ ‹_›
        | (subst_vars; rfl)
    refine ⟨⟨fun h => ⟨hall, vc.ID, v, by simp, by simpa using h⟩, ?_⟩, ?_⟩
    · rintro ⟨-, id, w, hm, hw⟩
      simp [clientStarted, hni] at hm
      simp [← hm.2, hw]
    · intro id w hm
      simp [clientStarted, hni] at hm
      refine ⟨hall, ?_, ?_⟩ <;> simp [hm.2]

/-- A run of `validate` that returns an error returns the verdict fail. -/
theorem ValidateRun.error_fails {client validator : String} {overrides : List String}
    {logdir : Path} {o : Run (Bool × Option Error)} {t : List Event}
    (hr : ValidateRun client validator overrides logdir o t) (p : Bool) (e : Error)
    (ho : o = .returned (p, some e)) : p = false := by
  cases hr <;> simp_all

/-- C1: `validate` returns pass exactly when no step failed and the final inspection of
the validator container took place and reported exit code 0.  Moreover, whenever that
final inspection succeeded, no step had failed, no error is returned, exit code 0 gives
pass and every other exit code gives fail. -/
theorem validate_pass_iff {σ : Type} (d : Daemon σ) (client validator : String)
    (overrides : List String) (logdir : Path) (fuel : Nat) (s : σ) :
    ((∃ err, (validate d client validator overrides logdir fuel s).outcome
          = .returned (true, err)) ↔
      ((∀ e ∈ (validate d client validator overrides logdir fuel s).trace,
          e.stepFailed = false) ∧
        ∃ id v, Event.inspectValidator id (.ok v)
            ∈ (validate d client validator overrides logdir fuel s).trace ∧
          v.exitCode = 0)) ∧
    (∀ id v, Event.inspectValidator id (.ok v)
          ∈ (validate d client validator overrides logdir fuel s).trace →
      (∀ e ∈ (validate d client validator overrides logdir fuel s).trace,
          e.stepFailed = false) ∧
      (v.exitCode = 0 →
        (validate d client validator overrides logdir fuel s).outcome
          = .returned (true, none)) ∧
      (v.exitCode ≠ 0 →
        (validate d client validator overrides logdir fuel s).outcome
          = .returned (false, none))) :=
  (validate_run d client validator overrides logdir fuel s).verdict

/-! ## Teardown -/

theorem removals_append (a b : List Event) : removals (a ++ b) = removals a ++ removals b := by
  simp [removals]

theorem createdClients_append (a b : List Event) :
    createdClients (a ++ b) = createdClients a ++ createdClients b := by
  simp [createdClients]

theorem createdValidators_append (a b : List Event) :
    createdValidators (a ++ b) = createdValidators a ++ createdValidators b := by
  simp [createdValidators]

/-- C2, as amended: on every run of `validate` that returns, the number of calls to
`RemoveContainer` is the number of containers that were created; it is at most two, and it
is two exactly when the validator container was created. -/
theorem validate_removals_count {σ : Type} (d : Daemon σ) (client validator : String)
    (overrides : List String) (logdir : Path) (fuel : Nat) (s : σ) (x : Bool × Option Error)
    (hx : (validate d client validator overrides logdir fuel s).outcome = .returned x) :
    (removals (validate d client validator overrides logdir fuel s).trace).length
      = (createdClients (validate d client validator overrides logdir fuel s).trace).length +
        (createdValidators (validate d client validator overrides logdir fuel s).trace).length
    ∧ (removals (validate d client validator overrides logdir fuel s).trace).length ≤ 2
    ∧ ((removals (validate d client validator overrides logdir fuel s).trace).length = 2 ↔
        createdValidators (validate d client validator overrides logdir fuel s).trace ≠ []) := by
  have hr := validate_run d client validator overrides logdir fuel s
  generalize (validate d client validator overrides logdir fuel s).outcome = o at hr hx
  generalize (validate d client validator overrides logdir fuel s).trace = t at hr ⊢
  cases hr
  all_goals first
    | (cases hx; done)
    | (have h1 := PollRun.removals_eq ‹_›
       have h2 := PollRun.createdClients_eq ‹_›
       have h3 := PollRun.createdValidators_eq ‹_›
       simp only [removals_append, createdClients_append, createdValidators_append, h1, h2, h3]
       simp [removals, createdClients, createdValidators, clientStarted])
    | simp [removals, createdClients, createdValidators]

/-! ## The readiness probe -/

theorem waitOnline_polling {σ : Type} (d : Daemon σ) (id : String) (fuel : Nat) :
    ∀ (N : Nat) (s : σ), fuel ≤ N →
      (∀ i < N, pollFails d id (pollState d id s i) = true) →
      (waitOnline d id fuel s).1 = .polling := by
  induction fuel with
  | zero => intro N s _ _; rfl
  | succ n ih =>
    intro N s hN hrun
    obtain ⟨M, rfl⟩ : ∃ M, N = M + 1 := ⟨N - 1, by omega⟩
    have h0 := hrun 0 (by omega)
    have hstep : ∀ i < M, pollFails d id (pollState d id (afterPoll d id s) i) = true :=
      fun i hi => hrun (i + 1) (by omega)
    have hrec := ih M (afterPoll d id s) (by omega) hstep
    rcases h1 : d.inspectContainer id s with ⟨err | c, s1⟩
    · simp [pollState, pollFails, h1] at h0
    · rcases h2 : d.dial (dialAddress c.ipAddress) s1 with ⟨b, s2⟩
      simp only [pollState, pollFails, h1, h2, Bool.and_eq_true, Bool.not_eq_true'] at h0
      obtain ⟨hc, rfl⟩ := h0
      simp only [afterPoll, h1, h2] at hrec
      unfold waitOnline
      simpa [h1, h2, hc] using hrec

theorem waitOnline_terminated {σ : Type} (d : Daemon σ) (id : String) (N : Nat) :
    ∀ (s : σ) (fuel : Nat), N < fuel →
      (∀ i < N, pollFails d id (pollState d id s i) = true) →
      pollTerminated d id (pollState d id s N) = true →
      ∃ pre c, (waitOnline d id fuel s).1 = .failed "terminated unexpectedly" ∧
        (waitOnline d id fuel s).2.2 = pre ++ [Event.inspectPoll id (.ok c)] ∧
        c.running = false ∧
        (d.inspectContainer id (pollState d id s N)).1 = .ok c ∧
        (dials pre).length = N ∧ (∀ a ∈ dials pre, a.2 = false) ∧
        (polls pre).length = N ∧ (∀ e ∈ pre, e.isProbe = true) := by
  induction N with
  | zero =>
    intro s fuel hfuel _ hflip
    obtain ⟨n, rfl⟩ : ∃ n, fuel = n + 1 := ⟨fuel - 1, by omega⟩
    rcases h1 : d.inspectContainer id s with ⟨err | c, s1⟩
    · simp [pollState, pollTerminated, h1] at hflip
    · simp only [pollState, pollTerminated, h1, Bool.not_eq_true'] at hflip
      unfold waitOnline
      exact ⟨[], c, by simp [h1, hflip], by simp [h1, hflip], hflip, by simp [pollState, h1],
        by simp [dials], by simp [dials], by simp [polls], by simp⟩
  | succ M ih =>
    intro s fuel hfuel hrun hflip
    obtain ⟨n, rfl⟩ : ∃ n, fuel = n + 1 := ⟨fuel - 1, by omega⟩
    have h0 := hrun 0 (by omega)
    have hstep : ∀ i < M, pollFails d id (pollState d id (afterPoll d id s) i) = true :=
      fun i hi => hrun (i + 1) (by omega)
    obtain ⟨pre, c1, hr1, hr2, hr3, hr4, hr5, hr6, hr7, hr8⟩ :=
      ih (afterPoll d id s) n (by omega) hstep hflip
    rcases h1 : d.inspectContainer id s with ⟨err | c, s1⟩
    · simp [pollState, pollFails, h1] at h0
    · rcases h2 : d.dial (dialAddress c.ipAddress) s1 with ⟨b, s2⟩
      simp only [pollState, pollFails, h1, h2, Bool.and_eq_true, Bool.not_eq_true'] at h0
      obtain ⟨hc, rfl⟩ := h0
      simp only [afterPoll, h1, h2] at hr1 hr2
      unfold waitOnline
      refine ⟨[Event.inspectPoll id (.ok c), Event.dial (dialAddress c.ipAddress) false,
        Event.sleep] ++ pre, c1, by simpa [h1, h2, hc] using hr1,
        by simpa [h1, h2, hc] using hr2, hr3, hr4, ?_, ?_, ?_, ?_⟩
      · simpa [dials] using hr5
      · intro a ha
        simp only [dials, List.filterMap_append, List.filterMap_cons, List.filterMap_nil,
          List.mem_append, List.mem_cons, List.mem_singleton, List.not_mem_nil,
          or_false] at ha
        rcases ha with rfl | ha
        · rfl
        · exact hr6 a ha
      · simpa [polls] using hr7
      · intro e he
        simp only [List.mem_append, List.mem_cons, List.mem_singleton, List.not_mem_nil,
          or_false] at he
        rcases he with (rfl | rfl | rfl) | he
        · rfl
        · rfl
        · rfl
        · exact hr8 e he

theorem PollRun.all_running {id : String} {p : Probe} {t : List Event} (h : PollRun id p t)
    (hall : ∀ r ∈ polls t, ∃ c, r = .ok c ∧ c.running = true) :
    p = .polling ∨ (p = .online ∧ ∃ a, (a, true) ∈ dials t) := by
  induction h with
  | budget => exact Or.inl rfl
  | inspectFailed err => simp [polls] at hall
  | terminated c hc => simp [polls, hc] at hall
  | connected c hc => exact Or.inr ⟨rfl, dialAddress c.ipAddress, by simp [dials]⟩
  | retry c hc p t k ih =>
    have hall1 : ∀ r ∈ polls t, ∃ c, r = .ok c ∧ c.running = true := by
      intro r hr
      apply hall r
      simp only [polls, List.filterMap_append, List.mem_append]
      exact Or.inr hr
    rcases ih hall1 with h1 | ⟨h1, a, ha⟩
    · exact Or.inl h1
    · refine Or.inr ⟨h1, a, ?_⟩
      simp only [dials, List.filterMap_append, List.mem_append]
      exact Or.inr ha

theorem polls_append (a b : List Event) : polls (a ++ b) = polls a ++ polls b := by
  simp [polls]

theorem dials_append (a b : List Event) : dials (a ++ b) = dials a ++ dials b := by
  simp [dials]

/-- On every engine: if `validate` returns after the readiness loop has made at least one
inspection, and every inspection made inside the loop reported the container running,
then a connection to port 8545 succeeded.  So the loop is never left, with "terminated
unexpectedly" or otherwise, while the inspections report the container running and the
port stays closed. -/
theorem validate_probe_never_early {σ : Type} (d : Daemon σ) (client validator : String)
    (overrides : List String) (logdir : Path) (fuel : Nat) (s : σ) (x : Bool × Option Error)
    (hret : (validate d client validator overrides logdir fuel s).outcome = .returned x)
    (hne : polls (validate d client validator overrides logdir fuel s).trace ≠ [])
    (hall : ∀ r ∈ polls (validate d client validator overrides logdir fuel s).trace,
      ∃ c, r = .ok c ∧ c.running = true) :
    ∃ a, (a, true) ∈ dials (validate d client validator overrides logdir fuel s).trace := by
  have hr := validate_run d client validator overrides logdir fuel s
  generalize (validate d client validator overrides logdir fuel s).outcome = o at hr hret
  generalize (validate d client validator overrides logdir fuel s).trace = t at hr hne hall ⊢
  cases hr
  case createClientFailed => simp [polls] at hne
  case clientIdShort => cases hret
  case runClientFailed => simp [polls] at hne
  case inspectClientFailed => simp [polls] at hne
  case stillPolling => cases hret
  all_goals
    rename_i hp
    have hall1 : ∀ r ∈ polls ‹List Event›, ∃ c, r = .ok c ∧ c.running = true := by
      intro r hr
      apply hall r
      simp only [polls_append, List.mem_append]
      exact Or.inl (Or.inr hr)
    rcases PollRun.all_running ‹_› hall1 with h1 | ⟨-, a, ha⟩
    · cases h1
    · refine ⟨a, ?_⟩
      simp only [dials_append, List.mem_append]
      exact Or.inl (Or.inr ha)

/-- C8: suppose the client container is created and started and its first inspection
succeeds, and that from then on the first `N` rounds of the readiness loop find the
container running with the connection to port 8545 failing, while the next inspection
reports it not running.  Then `validate` is still polling after any number of rounds up to
`N`, and with more rounds available it returns fail with the error "terminated
unexpectedly": exactly `N` connection attempts were made, all failed, `N + 1` inspections
were made inside the loop, no validator container was ever created, and the last call
before the teardown is the inspection that reported the container not running.  With any
number of rounds, `validate` does not return out of the loop while every inspection made
inside it reported the container running, unless a connection succeeded. -/
theorem validate_terminated {σ : Type} (d : Daemon σ) (client validator : String)
    (overrides : List String) (logdir : Path) (s : σ) (N : Nat) (cc : Container)
    (s1 s2 s3 : σ) (lcc : ContainerInfo)
    (h1 : d.createClientContainer client validator overrides s = (.ok cc, s1))
    (hid : 8 ≤ cc.ID.utf8ByteSize)
    (h2 : d.runContainer cc.ID (logdir ++ ["client.log"]) s1 = (.ok (), s2))
    (h3 : d.inspectContainer cc.ID s2 = (.ok lcc, s3))
    (hrun : ∀ i < N, pollFails d cc.ID (pollState d cc.ID s3 i) = true)
    (hflip : pollTerminated d cc.ID (pollState d cc.ID s3 N) = true) :
    (∀ fuel, fuel ≤ N →
      (validate d client validator overrides logdir fuel s).outcome = .polling) ∧
    (∀ fuel, N < fuel →
      (validate d client validator overrides logdir fuel s).outcome
        = .returned (false, some "terminated unexpectedly") ∧
      (dials (validate d client validator overrides logdir fuel s).trace).length = N ∧
      (∀ a ∈ dials (validate d client validator overrides logdir fuel s).trace,
        a.2 = false) ∧
      (polls (validate d client validator overrides logdir fuel s).trace).length = N + 1 ∧
      (∀ image env r, Event.createValidator image env r
        ∉ (validate d client validator overrides logdir fuel s).trace) ∧
      ∃ pre c rc, (validate d client validator overrides logdir fuel s).trace
          = pre ++ [Event.inspectPoll cc.ID (.ok c), Event.closeWaiter cc.ID,
              Event.removeContainer cc.ID rc] ∧
        c.running = false ∧
        (d.inspectContainer cc.ID (pollState d cc.ID s3 N)).1 = .ok c) ∧
    (∀ fuel x,
      (validate d client validator overrides logdir fuel s).outcome = .returned x →
      polls (validate d client validator overrides logdir fuel s).trace ≠ [] →
      (∀ r ∈ polls (validate d client validator overrides logdir fuel s).trace,
        ∃ c, r = .ok c ∧ c.running = true) →
      ∃ a, (a, true) ∈ dials (validate d client validator overrides logdir fuel s).trace) := by
  have hcc : ¬ cc.ID.utf8ByteSize < 8 := by omega
  refine ⟨?_, ?_, fun fuel x hret hne hall =>
    validate_probe_never_early d client validator overrides logdir fuel s x hret hne hall⟩
  · intro fuel hfuel
    have hp := waitOnline_polling d cc.ID fuel N s3 hfuel hrun
    rcases h4 : waitOnline d cc.ID fuel s3 with ⟨p, s4, tp⟩
    rw [h4] at hp
    simp only at hp
    subst hp
    unfold validate
    simp [h1, hcc, h2, h3, h4]
  · intro fuel hfuel
    obtain ⟨pre, c, hp1, hp2, hc, hins, hd1, hd2, hpl, hpr⟩ :=
      waitOnline_terminated d cc.ID N s3 fuel hfuel hrun hflip
    rcases h4 : waitOnline d cc.ID fuel s3 with ⟨p, s4, tp⟩
    rw [h4] at hp1 hp2
    simp only at hp1 hp2
    subst hp1 hp2
    have hnc : ∀ image env r, Event.createValidator image env r ∉ pre :=
      fun image env r hm => by simpa [Event.isProbe] using hpr _ hm
    unfold validate
    simp only [h1, hcc, h2, h3, h4, leave, runDeferred, if_false]
    refine ⟨trivial, ?_, ?_, ?_, ?_, ?_⟩
    · simpa [dials] using hd1
    · intro a ha
      apply hd2 a
      simpa [dials] using ha
    · simpa [polls] using hpl
    · intro image env r
      simp [hnc]
    · exact ⟨[Event.createClient client validator overrides (.ok cc),
          Event.runClient cc.ID (logdir ++ ["client.log"]) (.ok ()),
          Event.inspectClient cc.ID (.ok lcc)] ++ pre, c,
        (d.removeContainer cc.ID (d.close cc.ID s4)).1, by simp, hc, hins⟩

/-! ## The address handed to the validator -/

/-- C10, as amended: whenever the validator container is created, its image is the
validator image and its environment is the single variable `HIVE_CLIENT_IP` whose value is
the address reported by the one inspection made right after the client was started,
before the readiness loop; the addresses seen inside the loop play no part. -/
theorem validate_client_ip {σ : Type} (d : Daemon σ) (client validator : String)
    (overrides : List String) (logdir : Path) (fuel : Nat) (s : σ)
    (image : String) (env : List String) (r : Except Error Container)
    (h : Event.createValidator image env r
      ∈ (validate d client validator overrides logdir fuel s).trace) :
    image = validator ∧
    ∃ cc lcc rest, (validate d client validator overrides logdir fuel s).trace
        = clientStarted client validator overrides logdir cc lcc ++ rest ∧
      env = ["HIVE_CLIENT_IP=" ++ lcc.ipAddress] := by
  have hr := validate_run d client validator overrides logdir fuel s
  generalize (validate d client validator overrides logdir fuel s).outcome = o at hr
  generalize (validate d client validator overrides logdir fuel s).trace = t at hr h ⊢
  cases hr
  all_goals try have hnc := PollRun.not_createValidator ‹_›
  all_goals first
    | (simp at h; done)
    | (simp [clientStarted, hnc] at h; done)
    | (simp only [clientStarted, List.mem_append, List.mem_cons, List.mem_singleton,
        List.not_mem_nil, or_false, hnc, false_or, reduceCtorEq, Event.createValidator.injEq]
        at h
       obtain ⟨rfl, rfl, -⟩ := h
       exact ⟨rfl, _, _, _, by simp only [List.append_assoc]; rfl, rfl⟩)

/-! ## The matrix -/

theorem Results.append_same (results : Results) (client key entry : String) (row : Row)
    (h : results client = some row) :
    results.append client key entry client
      = some (Function.update row key (row key ++ [entry])) := by
  simp [Results.append, h]

theorem Results.append_other (results : Results) (client key entry name : String)
    (h : name ≠ client) : results.append client key entry name = results name := by
  simp [Results.append, Function.update, h]

theorem validatorLoop_cons_pass {σ : Type} (h : Host σ) (client clientImage : String)
    (overrides : List String) (fuel : Nat) (validator validatorImage : String)
    (rest : List (String × String)) (m : Matrix σ) (err : Option Error)
    (hro : (validate h.toDaemon clientImage validatorImage overrides
      (logdirOf h.hiveLogsFolder validator client) fuel m.state).outcome
        = .returned (true, err)) :
    validatorLoop h client clientImage overrides fuel ((validator, validatorImage) :: rest) m
      = validatorLoop h client clientImage overrides fuel rest
          ⟨(validate h.toDaemon clientImage validatorImage overrides
              (logdirOf h.hiveLogsFolder validator client) fuel m.state).state,
            m.results.append client "pass" validator, m.anyFailed,
            m.cells ++ [⟨client, validator,
              (validate h.toDaemon clientImage validatorImage overrides
                (logdirOf h.hiveLogsFolder validator client) fuel m.state).outcome,
              (validate h.toDaemon clientImage validatorImage overrides
                (logdirOf h.hiveLogsFolder validator client) fuel m.state).trace⟩]⟩ := by
  rw [validatorLoop]
  simp [hro]

theorem validatorLoop_cons_fail {σ : Type} (h : Host σ) (client clientImage : String)
    (overrides : List String) (fuel : Nat) (validator validatorImage : String)
    (rest : List (String × String)) (m : Matrix σ) (err : Option Error)
    (hro : (validate h.toDaemon clientImage validatorImage overrides
      (logdirOf h.hiveLogsFolder validator client) fuel m.state).outcome
        = .returned (false, err)) :
    validatorLoop h client clientImage overrides fuel ((validator, validatorImage) :: rest) m
      = validatorLoop h client clientImage overrides fuel rest
          ⟨(validate h.toDaemon clientImage validatorImage overrides
              (logdirOf h.hiveLogsFolder validator client) fuel m.state).state,
            m.results.append client "fail"
              (Cell.failEntry ⟨client, validator,
                (validate h.toDaemon clientImage validatorImage overrides
                  (logdirOf h.hiveLogsFolder validator client) fuel m.state).outcome,
                (validate h.toDaemon clientImage validatorImage overrides
                  (logdirOf h.hiveLogsFolder validator client) fuel m.state).trace⟩),
            true,
            m.cells ++ [⟨client, validator,
              (validate h.toDaemon clientImage validatorImage overrides
                (logdirOf h.hiveLogsFolder validator client) fuel m.state).outcome,
              (validate h.toDaemon clientImage validatorImage overrides
                (logdirOf h.hiveLogsFolder validator client) fuel m.state).trace⟩]⟩ := by
  rw [validatorLoop]
  cases err <;> simp [hro, Cell.failEntry]

/-- What one run of the inner loop of `validateClients` does to the loop variables. -/
theorem validatorLoop_spec {σ : Type} (h : Host σ) (client clientImage : String)
    (overrides : List String) (fuel : Nat) (vs : List (String × String)) :
    ∀ m : Matrix σ, ∃ new : List Cell,
      (validatorLoop h client clientImage overrides fuel vs m).2.cells = m.cells ++ new ∧
      (∀ c ∈ new, c.client = client) ∧
      (∀ c ∈ new, ∃ vi logdir s,
        c.outcome = (validate h.toDaemon clientImage vi overrides logdir fuel s).outcome ∧
        c.trace = (validate h.toDaemon clientImage vi overrides logdir fuel s).trace) ∧
      ((validatorLoop h client clientImage overrides fuel vs m).1 ≠ .returned () →
        ∃ c ∈ new, c.returned = false) ∧
      ((validatorLoop h client clientImage overrides fuel vs m).1 = .returned () →
        new.map (fun c => c.validator) = vs.map (fun v => v.1) ∧
        (∀ c ∈ new, c.returned = true) ∧
        (validatorLoop h client clientImage overrides fuel vs m).2.anyFailed
          = (m.anyFailed || new.any fun c => !c.passed) ∧
        (∀ name, name ≠ client →
          (validatorLoop h client clientImage overrides fuel vs m).2.results name
            = m.results name) ∧
        (∀ row, m.results client = some row →
          ∃ row1, (validatorLoop h client clientImage overrides fuel vs m).2.results client
              = some row1 ∧
            row1 "pass" = row "pass" ++ (new.filter fun c => c.passed).map
              (fun c => c.validator) ∧
            row1 "fail" = row "fail" ++ (new.filter fun c => !c.passed).map
              (fun c => c.failEntry) ∧
            ∀ k, k ≠ "pass" → k ≠ "fail" → row1 k = row k)) := by
  induction vs with
  | nil =>
    intro m
    exact ⟨[], by simp [validatorLoop], by simp, by simp, by simp [validatorLoop],
      by simpa [validatorLoop] using fun row hrow => ⟨row, hrow, rfl, rfl, fun _ _ _ => rfl⟩⟩
  | cons v rest ih =>
    intro m
    obtain ⟨validator, validatorImage⟩ := v
    rcases hro : (validate h.toDaemon clientImage validatorImage overrides
      (logdirOf h.hiveLogsFolder validator client) fuel m.state).outcome with x | _ | _
    · obtain ⟨pass, err⟩ := x
      cases pass
      · rw [validatorLoop_cons_fail h client clientImage overrides fuel validator
          validatorImage rest m err hro]
        have hhead : ∃ vi logdir s,
            (validate h.toDaemon clientImage validatorImage overrides
              (logdirOf h.hiveLogsFolder validator client) fuel m.state).outcome
              = (validate h.toDaemon clientImage vi overrides logdir fuel s).outcome ∧
            (validate h.toDaemon clientImage validatorImage overrides
              (logdirOf h.hiveLogsFolder validator client) fuel m.state).trace
              = (validate h.toDaemon clientImage vi overrides logdir fuel s).trace :=
          ⟨_, _, _, rfl, rfl⟩
        generalize validate h.toDaemon clientImage validatorImage overrides
          (logdirOf h.hiveLogsFolder validator client) fuel m.state = r at hro hhead ⊢
        obtain ⟨new, hc, hcl, hval, hnr, hr⟩ := ih
          ⟨r.state, m.results.append client "fail"
              (Cell.failEntry ⟨client, validator, r.outcome, r.trace⟩),
            true, m.cells ++ [⟨client, validator, r.outcome, r.trace⟩]⟩
        refine ⟨⟨client, validator, r.outcome, r.trace⟩ :: new, by simpa using hc,
          ?_, ?_, ?_, ?_⟩
        · intro c hcm
          rcases List.mem_cons.1 hcm with rfl | hcm
          · rfl
          · exact hcl c hcm
        · intro c hcm
          rcases List.mem_cons.1 hcm with rfl | hcm
          · exact hhead
          · exact hval c hcm
        · intro hne
          obtain ⟨c, hcm, hcr⟩ := hnr hne
          exact ⟨c, List.mem_cons_of_mem _ hcm, hcr⟩
        · intro hret
          obtain ⟨h1, h2, h3, h4, h5⟩ := hr hret
          have hnp : Cell.passed ⟨client, validator, r.outcome, r.trace⟩ = false := by
            simp [Cell.passed, hro]
          refine ⟨by simpa using h1, ?_, ?_, ?_, ?_⟩
          · intro c hcm
            rcases List.mem_cons.1 hcm with rfl | hcm
            · simp [Cell.returned, hro]
            · exact h2 c hcm
          · rw [h3]
            simp [hnp]
          · intro name hname
            exact (h4 name hname).trans (Results.append_other _ _ _ _ _ hname)
          · intro row hrow
            obtain ⟨row1, hr1, hr2, hr3, hr4⟩ :=
              h5 _ (Results.append_same _ _ "fail" _ row hrow)
            refine ⟨row1, hr1, ?_, ?_, ?_⟩
            · rw [hr2]
              simp [hnp, Function.update]
            · rw [hr3]
              simp [hnp, Function.update]
            · intro k hk1 hk2
              rw [hr4 k hk1 hk2]
              simp [Function.update, hk2]
      · rw [validatorLoop_cons_pass h client clientImage overrides fuel validator
          validatorImage rest m err hro]
        have hhead : ∃ vi logdir s,
            (validate h.toDaemon clientImage validatorImage overrides
              (logdirOf h.hiveLogsFolder validator client) fuel m.state).outcome
              = (validate h.toDaemon clientImage vi overrides logdir fuel s).outcome ∧
            (validate h.toDaemon clientImage validatorImage overrides
              (logdirOf h.hiveLogsFolder validator client) fuel m.state).trace
              = (validate h.toDaemon clientImage vi overrides logdir fuel s).trace :=
          ⟨_, _, _, rfl, rfl⟩
        generalize validate h.toDaemon clientImage validatorImage overrides
          (logdirOf h.hiveLogsFolder validator client) fuel m.state = r at hro hhead ⊢
        obtain ⟨new, hc, hcl, hval, hnr, hr⟩ := ih
          ⟨r.state, m.results.append client "pass" validator, m.anyFailed,
            m.cells ++ [⟨client, validator, r.outcome, r.trace⟩]⟩
        refine ⟨⟨client, validator, r.outcome, r.trace⟩ :: new, by simpa using hc,
          ?_, ?_, ?_, ?_⟩
        · intro c hcm
          rcases List.mem_cons.1 hcm with rfl | hcm
          · rfl
          · exact hcl c hcm
        · intro c hcm
          rcases List.mem_cons.1 hcm with rfl | hcm
          · exact hhead
          · exact hval c hcm
        · intro hne
          obtain ⟨c, hcm, hcr⟩ := hnr hne
          exact ⟨c, List.mem_cons_of_mem _ hcm, hcr⟩
        · intro hret
          obtain ⟨h1, h2, h3, h4, h5⟩ := hr hret
          have hnp : Cell.passed ⟨client, validator, r.outcome, r.trace⟩ = true := by
            simp [Cell.passed, hro]
          refine ⟨by simpa using h1, ?_, ?_, ?_, ?_⟩
          · intro c hcm
            rcases List.mem_cons.1 hcm with rfl | hcm
            · simp [Cell.returned, hro]
            · exact h2 c hcm
          · rw [h3]
            simp [hnp]
          · intro name hname
            exact (h4 name hname).trans (Results.append_other _ _ _ _ _ hname)
          · intro row hrow
            obtain ⟨row1, hr1, hr2, hr3, hr4⟩ :=
              h5 _ (Results.append_same _ _ "pass" _ row hrow)
            refine ⟨row1, hr1, ?_, ?_, ?_⟩
            · rw [hr2]
              simp [hnp, Function.update]
            · rw [hr3]
              simp [hnp, Function.update]
            · intro k hk1 hk2
              rw [hr4 k hk1 hk2]
              simp [Function.update, hk1]
    all_goals
      · refine ⟨[⟨client, validator,
          (validate h.toDaemon clientImage validatorImage overrides
            (logdirOf h.hiveLogsFolder validator client) fuel m.state).outcome,
          (validate h.toDaemon clientImage validatorImage overrides
            (logdirOf h.hiveLogsFolder validator client) fuel m.state).trace⟩],
          ?_, ?_, ?_, ?_, ?_⟩
        · unfold validatorLoop
          simp [hro]
        · simp
        · simp only [List.mem_singleton, forall_eq]
          exact ⟨_, _, _, rfl, rfl⟩
        · intro _
          simp [Cell.returned, hro]
        · unfold validatorLoop
          simp [hro]

theorem cellsOf_append (name : String) (a b : List Cell) :
    cellsOf name (a ++ b) = cellsOf name a ++ cellsOf name b := by
  simp [cellsOf]

theorem cellsOf_eq_self (name : String) (a : List Cell) (h : ∀ c ∈ a, c.client = name) :
    cellsOf name a = a := by
  simpa [cellsOf, List.filter_eq_self] using h

theorem cellsOf_eq_nil (name : String) (a : List Cell) (h : ∀ c ∈ a, c.client ≠ name) :
    cellsOf name a = [] := by
  simpa [cellsOf] using h

theorem clientLoop_cons {σ : Type} (h : Host σ) (validators : List (String × String))
    (overrides : List String) (fuel : Nat) (client clientImage : String)
    (rest : List (String × String)) (m : Matrix σ) :
    clientLoop h validators overrides fuel ((client, clientImage) :: rest) m
      = match validatorLoop h client clientImage overrides fuel
          (h.rangeValidators client validators)
          ⟨m.state, Function.update m.results client (some (fun _ => [])), m.anyFailed,
            m.cells⟩ with
        | (.returned _, m2) => clientLoop h validators overrides fuel rest m2
        | (.panicked, m2) => (.panicked, m2)
        | (.polling, m2) => (.polling, m2) := by
  rw [clientLoop]

/-- What the outer loop of `validateClients` does to the loop variables. -/
theorem clientLoop_spec {σ : Type} (h : Host σ) (validators : List (String × String))
    (overrides : List String) (fuel : Nat) (cs : List (String × String)) :
    ∀ m : Matrix σ, ∃ new : List Cell,
      (clientLoop h validators overrides fuel cs m).2.cells = m.cells ++ new ∧
      (∀ c ∈ new, c.client ∈ cs.map (fun x => x.1)) ∧
      (∀ c ∈ new, ∃ ci vi logdir s,
        c.outcome = (validate h.toDaemon ci vi overrides logdir fuel s).outcome ∧
        c.trace = (validate h.toDaemon ci vi overrides logdir fuel s).trace) ∧
      ((clientLoop h validators overrides fuel cs m).1 ≠ .returned () →
        ∃ c ∈ new, c.returned = false) ∧
      ((clientLoop h validators overrides fuel cs m).1 = .returned () →
        new.map (fun c => (c.client, c.validator))
          = matrixCells h.rangeValidators cs validators ∧
        (∀ c ∈ new, c.returned = true) ∧
        (clientLoop h validators overrides fuel cs m).2.anyFailed
          = (m.anyFailed || new.any fun c => !c.passed) ∧
        (∀ name, name ∉ cs.map (fun x => x.1) →
          (clientLoop h validators overrides fuel cs m).2.results name = m.results name) ∧
        ((cs.map (fun x => x.1)).Nodup → ∀ name ∈ cs.map (fun x => x.1),
          ∃ row, (clientLoop h validators overrides fuel cs m).2.results name = some row ∧
            row "pass" = ((cellsOf name new).filter fun c => c.passed).map
              (fun c => c.validator) ∧
            row "fail" = ((cellsOf name new).filter fun c => !c.passed).map
              (fun c => c.failEntry) ∧
            (∀ k, k ≠ "pass" → k ≠ "fail" → row k = []) ∧
            (cellsOf name new).map (fun c => c.validator)
              = (h.rangeValidators name validators).map (fun v => v.1))) := by
  induction cs with
  | nil =>
    intro m
    exact ⟨[], by simp [clientLoop], by simp, by simp, by simp [clientLoop],
      by simp [clientLoop, matrixCells]⟩
  | cons c rest ih =>
    intro m
    obtain ⟨client, clientImage⟩ := c
    rw [clientLoop_cons]
    obtain ⟨new1, hc1, hcl1, hval1, hnr1, hr1⟩ :=
      validatorLoop_spec h client clientImage overrides fuel
        (h.rangeValidators client validators)
        ⟨m.state, Function.update m.results client (some (fun _ => [])), m.anyFailed, m.cells⟩
    rcases hv : validatorLoop h client clientImage overrides fuel
        (h.rangeValidators client validators)
        ⟨m.state, Function.update m.results client (some (fun _ => [])), m.anyFailed,
          m.cells⟩ with ⟨out, m2⟩
    rw [hv] at hc1 hnr1 hr1
    have hval1a : ∀ c ∈ new1, ∃ ci vi logdir s,
        c.outcome = (validate h.toDaemon ci vi overrides logdir fuel s).outcome ∧
        c.trace = (validate h.toDaemon ci vi overrides logdir fuel s).trace :=
      fun c hcm => ⟨clientImage, hval1 c hcm⟩
    have hcl1a : ∀ c ∈ new1,
        c.client ∈ List.map (fun x => x.1) ((client, clientImage) :: rest) :=
      fun c hcm => by simp [hcl1 c hcm]
    cases out with
    | panicked =>
      exact ⟨new1, hc1, hcl1a, hval1a, fun _ => hnr1 (by simp), by simp⟩
    | polling =>
      exact ⟨new1, hc1, hcl1a, hval1a, fun _ => hnr1 (by simp), by simp⟩
    | returned u =>
      obtain ⟨g1, g2, g3, g4, g5⟩ := hr1 rfl
      obtain ⟨new2, hc2, hcl2, hval2, hnr2, hr2⟩ := ih m2
      simp only at hc1 g3 g4 g5 ⊢
      refine ⟨new1 ++ new2, ?_, ?_, ?_, ?_, ?_⟩
      · rw [hc2, hc1, List.append_assoc]
      · intro c hcm
        rcases List.mem_append.1 hcm with hcm | hcm
        · exact hcl1a c hcm
        · exact List.mem_cons_of_mem _ (hcl2 c hcm)
      · intro c hcm
        rcases List.mem_append.1 hcm with hcm | hcm
        · exact hval1a c hcm
        · exact hval2 c hcm
      · intro hne
        obtain ⟨c, hcm, hcr⟩ := hnr2 hne
        exact ⟨c, List.mem_append_right _ hcm, hcr⟩
      · intro hret
        obtain ⟨k1, k2, k3, k4, k5⟩ := hr2 hret
        refine ⟨?_, ?_, ?_, ?_, ?_⟩
        · have e1 : new1.map (fun c => (c.client, c.validator))
              = (h.rangeValidators client validators).map (fun v => (client, v.1)) := by
            have : new1.map (fun c => (c.client, c.validator))
                = (new1.map (fun c => c.validator)).map (fun v => (client, v)) := by
              rw [List.map_map]
              exact List.map_congr_left fun c hcm => by simp [hcl1 c hcm]
            rw [this, g1, List.map_map]
            rfl
          simp only [List.map_append, e1, k1, matrixCells, List.flatMap_cons]
        · intro c hcm
          rcases List.mem_append.1 hcm with hcm | hcm
          · exact g2 c hcm
          · exact k2 c hcm
        · rw [k3, g3]
          simp [Bool.or_assoc]
        · intro name hname
          simp only [List.map_cons, List.mem_cons, not_or] at hname
          rw [k4 name hname.2, g4 name hname.1]
          simp [Function.update, hname.1]
        · intro hnd name hname
          simp only [List.map_cons, List.nodup_cons] at hnd
          simp only [List.map_cons, List.mem_cons] at hname
          rcases hname with rfl | hname
          · obtain ⟨row1, r1, r2, r3, r4⟩ := g5 (fun _ => []) (by simp)
            have e2 : cellsOf name (new1 ++ new2) = new1 := by
              rw [cellsOf_append, cellsOf_eq_self name new1 hcl1,
                cellsOf_eq_nil name new2 (fun c hcm hcn => hnd.1 (hcn ▸ hcl2 c hcm)),
                List.append_nil]
            refine ⟨row1, ?_, ?_, ?_, ?_, ?_⟩
            · rw [k4 name hnd.1, r1]
            · simpa [e2] using r2
            · simpa [e2] using r3
            · intro k hk1 hk2
              rw [r4 k hk1 hk2]
            · rw [e2, g1]
          · have hne : name ≠ client := fun e => hnd.1 (e ▸ hname)
            obtain ⟨row, r1, r2, r3, r4, r5⟩ := k5 hnd.2 name hname
            have e2 : cellsOf name (new1 ++ new2) = cellsOf name new2 := by
              rw [cellsOf_append,
                cellsOf_eq_nil name new1 (fun c hcm hcn => hne (hcn.symm.trans (hcl1 c hcm))),
                List.nil_append]
            exact ⟨row, r1, by rw [e2]; exact r2, by rw [e2]; exact r3, r4,
              by rw [e2]; exact r5⟩

/-- Whatever the order of the inner loop, the cells visited are the cells of the matrix,
each as often as it occurs there. -/
theorem matrixCells_perm (order : String → List (String × String) → List (String × String))
    (hperm : ∀ client validators, (order client validators).Perm validators)
    (clients validators : List (String × String)) :
    (matrixCells order clients validators).Perm (allCells clients validators) := by
  induction clients with
  | nil => simp [matrixCells, allCells]
  | cons c rest ih =>
    simp only [matrixCells, allCells, List.flatMap_cons] at ih ⊢
    exact List.Perm.append ((hperm c.1 validators).map _) ih

/-- What `validateClients` does once both image sets have been built. -/
theorem validateClients_built {σ : Type} (h : Host σ) (clientPattern validatorPattern : String)
    (overrides : List String) (fuel : Nat) (s s1 s2 : σ)
    (clients validators : List (String × String))
    (hb1 : h.buildClients clientPattern s = (.ok clients, s1))
    (hb2 : h.buildValidators validatorPattern s1 = (.ok validators, s2)) :
    (∀ c ∈ (validateClients h clientPattern validatorPattern overrides fuel s).cells,
      ∃ ci vi logdir s0,
        c.outcome = (validate h.toDaemon ci vi overrides logdir fuel s0).outcome ∧
        c.trace = (validate h.toDaemon ci vi overrides logdir fuel s0).trace) ∧
    (((∃ c ∈ (validateClients h clientPattern validatorPattern overrides fuel s).cells,
          c.returned = false) ∧
        ∀ x, (validateClients h clientPattern validatorPattern overrides fuel s).outcome
          ≠ .returned x) ∨
      ((validateClients h clientPattern validatorPattern overrides fuel s).outcome
          = .returned
              ((validateClients h clientPattern validatorPattern overrides fuel s).cells.any
                (fun c => !c.passed), none) ∧
        (∀ c ∈ (validateClients h clientPattern validatorPattern overrides fuel s).cells,
          c.returned = true) ∧
        (validateClients h clientPattern validatorPattern overrides fuel s).cells.map
            (fun c => (c.client, c.validator))
          = matrixCells h.rangeValidators clients validators ∧
        ∃ table, (validateClients h clientPattern validatorPattern overrides fuel s).printed
            = some table ∧
          (∀ name, name ∉ clients.map (fun x => x.1) → table name = none) ∧
          ((clients.map (fun x => x.1)).Nodup → ∀ name ∈ clients.map (fun x => x.1),
            ∃ row, table name = some row ∧
              row "pass" = ((cellsOf name
                  (validateClients h clientPattern validatorPattern overrides fuel s).cells).filter
                    fun c => c.passed).map (fun c => c.validator) ∧
              row "fail" = ((cellsOf name
                  (validateClients h clientPattern validatorPattern overrides fuel s).cells).filter
                    fun c => !c.passed).map (fun c => c.failEntry) ∧
              (∀ k, k ≠ "pass" → k ≠ "fail" → row k = []) ∧
              (cellsOf name
                  (validateClients h clientPattern validatorPattern overrides fuel s).cells).map
                (fun c => c.validator)
                = (h.rangeValidators name validators).map (fun v => v.1)))) := by
  obtain ⟨new, hc, -, hval, hnr, hr⟩ :=
    clientLoop_spec h validators overrides fuel clients ⟨s2, fun _ => none, false, []⟩
  rcases hl : clientLoop h validators overrides fuel clients ⟨s2, fun _ => none, false, []⟩
    with ⟨out, m⟩
  rw [hl] at hc hnr hr
  simp only [List.nil_append] at hc
  subst hc
  cases out with
  | panicked =>
    simp only [validateClients, hb1, hb2, hl]
    exact ⟨hval, Or.inl ⟨hnr (by simp), by simp⟩⟩
  | polling =>
    simp only [validateClients, hb1, hb2, hl]
    exact ⟨hval, Or.inl ⟨hnr (by simp), by simp⟩⟩
  | returned u =>
    obtain ⟨k1, k2, k3, k4, k5⟩ := hr rfl
    simp only [validateClients, hb1, hb2, hl]
    simp only [Bool.false_or] at k3
    exact ⟨hval, Or.inr ⟨by rw [k3], k2, k1, m.results, rfl, k4, k5⟩⟩

/-- When building either image set fails, `validateClients` returns that error at once. -/
theorem validateClients_not_built {σ : Type} (h : Host σ)
    (clientPattern validatorPattern : String) (overrides : List String) (fuel : Nat) (s : σ)
    (hb : ∀ clients s1 validators s2, h.buildClients clientPattern s = (.ok clients, s1) →
      h.buildValidators validatorPattern s1 ≠ (.ok validators, s2)) :
    (∃ err, (validateClients h clientPattern validatorPattern overrides fuel s).outcome
        = .returned (false, some err)) ∧
      (validateClients h clientPattern validatorPattern overrides fuel s).cells = [] ∧
      (validateClients h clientPattern validatorPattern overrides fuel s).printed = none := by
  rcases hb1 : h.buildClients clientPattern s with ⟨err | clients, s1⟩
  · simp [validateClients, hb1]
  · rcases hb2 : h.buildValidators validatorPattern s1 with ⟨err | validators, s2⟩
    · simp [validateClients, hb1, hb2]
    · exact absurd hb2 (hb clients s1 validators s2 hb1)

theorem filter_length_add {α : Type} (p : α → Bool) (l : List α) :
    (l.filter p).length + (l.filter fun a => !p a).length = l.length := by
  induction l with
  | nil => rfl
  | cons a l ih =>
    cases hp : p a <;> simp [List.filter_cons, hp] <;> omega

theorem Cell.passed_eq_false_iff (c : Cell) (hc : c.returned = true) :
    c.passed = false ↔ ∃ e, c.outcome = .returned (false, e) := by
  unfold Cell.passed
  unfold Cell.returned at hc
  rcases ho : c.outcome with ⟨p, e⟩ | _ | _
  · cases p <;> simp
  · simp [ho] at hc
  · simp [ho] at hc

/-- C4: once both image sets are built (client names being the keys of a map, hence
distinct) and `validateClients` returns, the table it prints has an entry for exactly the
clients; for each client, `validate` was called once per validator, in the order in which
the inner loop visited the validators for that client, the "pass" list holds the
validators whose call passed and the "fail" list one entry for each validator whose call
did not pass, both in that order, and the two lists together have as many entries as
there are validators. -/
theorem validateClients_table {σ : Type} (h : Host σ) (clientPattern validatorPattern : String)
    (overrides : List String) (fuel : Nat) (s s1 s2 : σ)
    (clients validators : List (String × String))
    (hb1 : h.buildClients clientPattern s = (.ok clients, s1))
    (hb2 : h.buildValidators validatorPattern s1 = (.ok validators, s2))
    (hnd : (clients.map (fun x => x.1)).Nodup) (x : Bool × Option Error)
    (hret : (validateClients h clientPattern validatorPattern overrides fuel s).outcome
      = .returned x) :
    ∃ table, (validateClients h clientPattern validatorPattern overrides fuel s).printed
        = some table ∧
      (∀ name, name ∉ clients.map (fun x => x.1) → table name = none) ∧
      ∀ name ∈ clients.map (fun x => x.1), ∃ row, table name = some row ∧
        (cellsOf name
            (validateClients h clientPattern validatorPattern overrides fuel s).cells).map
          (fun c => c.validator) = (h.rangeValidators name validators).map (fun v => v.1) ∧
        ((cellsOf name
            (validateClients h clientPattern validatorPattern overrides fuel s).cells).map
          (fun c => c.validator)).Perm (validators.map (fun v => v.1)) ∧
        row "pass" = ((cellsOf name
            (validateClients h clientPattern validatorPattern overrides fuel s).cells).filter
              fun c => c.passed).map (fun c => c.validator) ∧
        row "fail" = ((cellsOf name
            (validateClients h clientPattern validatorPattern overrides fuel s).cells).filter
              fun c => !c.passed).map (fun c => c.failEntry) ∧
        (∀ k, k ≠ "pass" → k ≠ "fail" → row k = []) ∧
        (row "pass").length + (row "fail").length = validators.length := by
  obtain ⟨-, hcase⟩ := validateClients_built h clientPattern validatorPattern overrides fuel
    s s1 s2 clients validators hb1 hb2
  rcases hcase with ⟨-, hno⟩ | ⟨-, -, -, table, hp, hout, hrows⟩
  · exact absurd hret (hno x)
  · refine ⟨table, hp, hout, fun name hname => ?_⟩
    obtain ⟨row, r1, r2, r3, r4, r5⟩ := hrows hnd name hname
    have hperm : ((cellsOf name
        (validateClients h clientPattern validatorPattern overrides fuel s).cells).map
          (fun c => c.validator)).Perm (validators.map (fun v => v.1)) :=
      r5 ▸ (h.rangeValidators_perm name validators).map _
    refine ⟨row, r1, r5, hperm, r2, r3, r4, ?_⟩
    rw [r2, r3, List.length_map, List.length_map, filter_length_add]
    simpa using hperm.length_eq

/-- C5: when `validateClients` returns, `anyFailed` is true exactly when some call of
`validate` did not pass.  Every call it made returned; a call that returned an error
returned the verdict fail and so counts as not passing, like a call that returned fail
without an error.  Once both image sets are built the calls are the cells of the matrix
in the order the loops visit them, one call for each cell. -/
theorem validateClients_anyFailed {σ : Type} (h : Host σ)
    (clientPattern validatorPattern : String) (overrides : List String) (fuel : Nat) (s : σ)
    (anyFailed : Bool) (err : Option Error)
    (hret : (validateClients h clientPattern validatorPattern overrides fuel s).outcome
      = .returned (anyFailed, err)) :
    (anyFailed = true ↔
      ∃ c ∈ (validateClients h clientPattern validatorPattern overrides fuel s).cells,
        c.passed = false) ∧
    (∀ c ∈ (validateClients h clientPattern validatorPattern overrides fuel s).cells,
      (∃ y, c.outcome = .returned y) ∧
      (∀ p e, c.outcome = .returned (p, some e) → p = false ∧ c.passed = false) ∧
      (c.passed = false ↔ ∃ e, c.outcome = .returned (false, e))) ∧
    (∀ clients s1 validators s2,
      h.buildClients clientPattern s = (.ok clients, s1) →
      h.buildValidators validatorPattern s1 = (.ok validators, s2) →
      (validateClients h clientPattern validatorPattern overrides fuel s).cells.map
          (fun c => (c.client, c.validator))
        = matrixCells h.rangeValidators clients validators ∧
      ((validateClients h clientPattern validatorPattern overrides fuel s).cells.map
        (fun c => (c.client, c.validator))).Perm (allCells clients validators)) := by
  by_cases hb : ∃ clients s1 validators s2,
      h.buildClients clientPattern s = (.ok clients, s1) ∧
      h.buildValidators validatorPattern s1 = (.ok validators, s2)
  · obtain ⟨clients, s1, validators, s2, hb1, hb2⟩ := hb
    obtain ⟨hval, hcase⟩ := validateClients_built h clientPattern validatorPattern overrides
      fuel s s1 s2 clients validators hb1 hb2
    rcases hcase with ⟨-, hno⟩ | ⟨hout, hall, hcells, -⟩
    · exact absurd hret (hno _)
    · rw [hout] at hret
      simp only [Run.returned.injEq, Prod.mk.injEq] at hret
      refine ⟨?_, ?_, ?_⟩
      · rw [← hret.1]
        simp [List.any_eq_true]
      · intro c hc
        have hcr := hall c hc
        refine ⟨?_, ?_, Cell.passed_eq_false_iff c hcr⟩
        · unfold Cell.returned at hcr
          rcases ho : c.outcome with y | _ | _
          · exact ⟨y, rfl⟩
          · simp [ho] at hcr
          · simp [ho] at hcr
        · intro p e hpe
          obtain ⟨ci, vi, logdir, s0, e1, -⟩ := hval c hc
          have hp : p = false :=
            (validate_run h.toDaemon ci vi overrides logdir fuel s0).error_fails p e
              (e1 ▸ hpe)
          subst hp
          exact ⟨rfl, (Cell.passed_eq_false_iff c hcr).2 ⟨_, hpe⟩⟩
      · intro clients1 t1 validators1 t2 hc1 hc2
        rw [hb1] at hc1
        simp only [Prod.mk.injEq, Except.ok.injEq] at hc1
        obtain ⟨rfl, rfl⟩ := hc1
        rw [hb2] at hc2
        simp only [Prod.mk.injEq, Except.ok.injEq] at hc2
        obtain ⟨rfl, rfl⟩ := hc2
        exact ⟨hcells, hcells ▸ matrixCells_perm _ h.rangeValidators_perm _ _⟩
  · have hb1 : ∀ clients s1 validators s2,
        h.buildClients clientPattern s = (.ok clients, s1) →
        h.buildValidators validatorPattern s1 ≠ (.ok validators, s2) :=
      fun clients s1 validators s2 h1 h2 => hb ⟨clients, s1, validators, s2, h1, h2⟩
    obtain ⟨⟨e, he⟩, hcells, -⟩ := validateClients_not_built h clientPattern
      validatorPattern overrides fuel s hb1
    rw [he] at hret
    simp only [Run.returned.injEq, Prod.mk.injEq] at hret
    rw [hcells]
    refine ⟨by simp [← hret.1], by simp, ?_⟩
    intro clients s1 validators s2 h1 h2
    exact absurd h2 (hb1 clients s1 validators s2 h1)

/-- C6: once both image sets are built, if every call of `validate` that was made returned
(with a verdict or with an error), then `validateClients` returns without an error,
`validate` was called once for each cell of the matrix, in the order in which the loops
visit the cells, a call
that returned an error is recorded as the validator name, a colon, a blank and the error
text, a call that returned fail without an error as the validator name alone, and these
entries make up the "fail" list of the client in the printed table. -/
theorem validateClients_no_halt {σ : Type} (h : Host σ)
    (clientPattern validatorPattern : String) (overrides : List String) (fuel : Nat)
    (s s1 s2 : σ) (clients validators : List (String × String))
    (hb1 : h.buildClients clientPattern s = (.ok clients, s1))
    (hb2 : h.buildValidators validatorPattern s1 = (.ok validators, s2))
    (hall : ∀ c ∈ (validateClients h clientPattern validatorPattern overrides fuel s).cells,
      c.returned = true) :
    (∃ anyFailed, (validateClients h clientPattern validatorPattern overrides fuel s).outcome
      = .returned (anyFailed, none)) ∧
    (validateClients h clientPattern validatorPattern overrides fuel s).cells.map
      (fun c => (c.client, c.validator)) = matrixCells h.rangeValidators clients validators ∧
    ((validateClients h clientPattern validatorPattern overrides fuel s).cells.map
      (fun c => (c.client, c.validator))).Perm (allCells clients validators) ∧
    (∀ c ∈ (validateClients h clientPattern validatorPattern overrides fuel s).cells,
      (∀ e, c.outcome = .returned (false, some e) → c.failEntry = c.validator ++ ": " ++ e) ∧
      (c.outcome = .returned (false, none) → c.failEntry = c.validator)) ∧
    ∃ table, (validateClients h clientPattern validatorPattern overrides fuel s).printed
        = some table ∧
      ((clients.map (fun x => x.1)).Nodup → ∀ name ∈ clients.map (fun x => x.1),
        ∃ row, table name = some row ∧
          row "fail" = ((cellsOf name
              (validateClients h clientPattern validatorPattern overrides fuel s).cells).filter
                fun c => !c.passed).map (fun c => c.failEntry)) := by
  obtain ⟨-, hcase⟩ := validateClients_built h clientPattern validatorPattern overrides fuel
    s s1 s2 clients validators hb1 hb2
  rcases hcase with ⟨⟨c, hc, hcr⟩, -⟩ | ⟨hout, -, hcells, table, hp, -, hrows⟩
  · rw [hall c hc] at hcr
    exact absurd hcr (by simp)
  · refine ⟨⟨_, hout⟩, hcells, hcells ▸ matrixCells_perm _ h.rangeValidators_perm _ _, ?_,
      table, hp, fun hnd name hname => ?_⟩
    · intro c _
      exact ⟨fun e he => by simp [Cell.failEntry, he], fun he => by simp [Cell.failEntry, he]⟩
    · obtain ⟨row, r1, -, r3, -⟩ := hrows hnd name hname
      exact ⟨row, r1, r3⟩

/-- C7, as amended: when all steps of a pairing succeed and the validator container exits
with a non-zero code, `validate` returns the verdict fail and no error, so the entry
recorded in the "fail" list of the client is the validator name alone; the exit code is
not part of it. -/
theorem validateClients_nonzero_exit {σ : Type} (h : Host σ)
    (clientPattern validatorPattern : String) (overrides : List String) (fuel : Nat)
    (s s1 s2 : σ) (clients validators : List (String × String))
    (hb1 : h.buildClients clientPattern s = (.ok clients, s1))
    (hb2 : h.buildValidators validatorPattern s1 = (.ok validators, s2))
    (hnd : (clients.map (fun x => x.1)).Nodup) (x : Bool × Option Error)
    (hret : (validateClients h clientPattern validatorPattern overrides fuel s).outcome
      = .returned x)
    (c : Cell)
    (hc : c ∈ (validateClients h clientPattern validatorPattern overrides fuel s).cells)
    (id : String) (v : ContainerInfo)
    (hv : Event.inspectValidator id (.ok v) ∈ c.trace) (hk : v.exitCode ≠ 0) :
    (∀ e ∈ c.trace, e.stepFailed = false) ∧
    c.outcome = .returned (false, none) ∧ c.failEntry = c.validator ∧
    ∃ table row, (validateClients h clientPattern validatorPattern overrides fuel s).printed
        = some table ∧
      table c.client = some row ∧ c.validator ∈ row "fail" := by
  obtain ⟨hval, hcase⟩ := validateClients_built h clientPattern validatorPattern overrides
    fuel s s1 s2 clients validators hb1 hb2
  rcases hcase with ⟨-, hno⟩ | ⟨-, -, hcells, table, hp, -, hrows⟩
  · exact absurd hret (hno x)
  · obtain ⟨ci, vi, logdir, s0, e1, e2⟩ := hval c hc
    have hver := (validate_run h.toDaemon ci vi overrides logdir fuel s0).verdict.2 id v
      (e2 ▸ hv)
    have ho : c.outcome = .returned (false, none) := e1.trans (hver.2.2 hk)
    have hfe : c.failEntry = c.validator := by simp [Cell.failEntry, ho]
    have hname : c.client ∈ clients.map (fun x => x.1) := by
      have hm : (c.client, c.validator) ∈ matrixCells h.rangeValidators clients validators :=
        hcells ▸ List.mem_map.2 ⟨c, hc, rfl⟩
      simp only [matrixCells, List.mem_flatMap, List.mem_map, Prod.mk.injEq] at hm
      obtain ⟨cl, hcl, _, _, hcn, _⟩ := hm
      exact List.mem_map.2 ⟨cl, hcl, hcn⟩
    obtain ⟨row, r1, -, r3, -⟩ := hrows hnd c.client hname
    refine ⟨fun e he => hver.1 e (e2 ▸ he), ho, hfe, table, row, hp, r1, ?_⟩
    rw [r3, ← hfe]
    refine List.mem_map.2 ⟨c, List.mem_filter.2 ⟨?_, ?_⟩, rfl⟩
    · simp [cellsOf, hc]
    · simp [Cell.passed, ho]


/-! ## The exit status of the process -/

/-- Whenever `mainInHost` returns an error, it returns it with `anyFailed` set. -/
theorem mainInHost_error_anyFailed {σ : Type} (h : Host σ) (f : Flags)
    (overrides : List String) (fuel : Nat) (s s1 : σ) (b : Bool) (e : Error)
    (hret : mainInHost h f overrides fuel s = (.returned (b, some e), s1)) : b = true := by
  unfold mainInHost at hret
  cases hsm : f.smokeFlag
  · simp only [hsm, Bool.false_eq_true, if_false] at hret
    split at hret
    · simp at hret
    · simp at hret
    · rename_i hstep
      simp only [Prod.mk.injEq, Run.returned.injEq, Option.some.injEq] at hret
      obtain ⟨⟨rfl, rfl⟩, rfl⟩ := hret
      repeat' split at hstep
      all_goals simp_all
    · split at hret
      · rename_i hstep
        simp only [Prod.mk.injEq, Run.returned.injEq, Option.some.injEq] at hret
        obtain ⟨⟨rfl, rfl⟩, rfl⟩ := hret
        repeat' split at hstep
        all_goals simp_all
      · repeat' split at hret
        all_goals simp_all
  · simp only [hsm, if_true] at hret
    repeat' split at hret
    all_goals simp_all

/-- When the engine answers and hive runs on the host itself, the exit status is -1 as soon
as `mainInHost` reports a failed cell or an error. -/
theorem main_exit_failed {σ : Type} (h : Host σ) (f : Flags) (fuel : Nat) (s s1 s2 : σ)
    (hc : h.newClient f.dockerEndpoint s = (none, s1)) (hv : h.version s1 = (none, s2))
    (hs : f.noShellContainer = true) (anyFailed : Bool) (fail : Option Error)
    (hm : (mainInHost h f (if f.overrideFiles ≠ "" then f.overrideFiles.splitOn "," else [])
      fuel s2).1 = .returned (anyFailed, fail))
    (hbad : anyFailed = true ∨ fail ≠ none) :
    (main h f fuel s).1 = .returned (-1) := by
  unfold main
  simp only [hc, hv, hs, if_true]
  rcases hr : mainInHost h f (if f.overrideFiles ≠ "" then f.overrideFiles.splitOn "," else [])
    fuel s2 with ⟨out, s3⟩
  rw [hr] at hm
  simp only at hm
  subst hm
  rcases hbad with rfl | hf
  · simp
  · cases fail with
    | none => exact absurd rfl hf
    | some e => simp

/-- When creating the Docker client or asking the daemon for its version fails, `main`
logs the error and returns, so the process ends with exit status 0. -/
theorem main_exit_unreachable {σ : Type} (h : Host σ) (f : Flags) (fuel : Nat) (s : σ)
    (hu : (h.newClient f.dockerEndpoint s).1 ≠ none ∨
      (h.version (h.newClient f.dockerEndpoint s).2).1 ≠ none) :
    (main h f fuel s).1 = .returned 0 := by
  unfold main
  rcases hc : h.newClient f.dockerEndpoint s with ⟨_ | e, s1⟩
  · rcases hv : h.version s1 with ⟨_ | e, s2⟩
    · simp [hc, hv] at hu
    · simp [hv]
  · rfl

/-- C9, at the failing input: on a host where the Docker client cannot be created, and on
a host where the daemon does not answer the version query, `main` ends the process with
exit status 0 although a non-recoverable orchestration error occurred. -/
theorem main_unreachable_exit_zero :
    (main offlineHost hostFlags 1 ()).1 = .returned 0 ∧
    (offlineHost.newClient hostFlags.dockerEndpoint ()).1 = some "invalid endpoint" ∧
    (main silentHost hostFlags 1 ()).1 = .returned 0 ∧
    (silentHost.newClient hostFlags.dockerEndpoint ()).1 = none ∧
    (silentHost.version ()).1 = some "cannot connect to the Docker daemon" := by
  decide

/-! ## The properties on concrete runs -/

/-- The verdict on two concrete runs: the validator exits 0 and `validate` returns pass,
the validator exits 1 and `validate` returns fail without an error. -/
theorem validate_pass_iff_witness :
    passingRun.outcome = .returned (true, none) ∧
    verdicts passingRun.trace = [.ok ⟨false, 0, ""⟩] ∧
    failingRun.outcome = .returned (false, none) ∧
    verdicts failingRun.trace = [.ok ⟨false, 1, ""⟩] ∧
    ((∃ err, passingRun.outcome = .returned (true, err)) ↔
      ((∀ e ∈ passingRun.trace, e.stepFailed = false) ∧
        ∃ id v, Event.inspectValidator id (.ok v) ∈ passingRun.trace ∧ v.exitCode = 0)) :=
  ⟨by decide, by decide, by decide, by decide,
    (validate_pass_iff (tableEngine diagonalTable) "img-A" "img-X" []
      (logdirOf "workspace/logs" "X" "A") 1 ("", "")).1⟩

/-- C2, counterexample: when the client container cannot be created `validate` returns
without any call to `RemoveContainer`, and when the client dies during the readiness
probe it returns after a single call; in neither run is the count two. -/
theorem validate_removals_not_two :
    offlineRun.outcome = .returned (false, some "cannot connect to the Docker daemon") ∧
    removals offlineRun.trace = [] ∧
    (removals offlineRun.trace).length ≠ 2 ∧
    (terminatedRun 3).outcome = .returned (false, some "terminated unexpectedly") ∧
    removals (terminatedRun 3).trace = ["client-img-A"] ∧
    (removals (terminatedRun 3).trace).length ≠ 2 := by
  decide

/-- The count of removals on a run in which both containers are created. -/
theorem validate_removals_count_witness :
    failingRun.outcome = .returned (false, none) ∧
    ((removals failingRun.trace).length
        = (createdClients failingRun.trace).length +
          (createdValidators failingRun.trace).length
      ∧ (removals failingRun.trace).length ≤ 2
      ∧ ((removals failingRun.trace).length = 2 ↔ createdValidators failingRun.trace ≠ [])) ∧
    removals failingRun.trace = ["validator-img-Y", "client-img-A"] :=
  ⟨by decide,
    validate_removals_count (tableEngine diagonalTable) "img-A" "img-Y" []
      (logdirOf "workspace/logs" "Y" "A") 1 ("", "") (false, none) (by decide),
    by decide⟩

/-- The matrix of clients A, B and validators X, Y with A/X pass, A/Y fail, B/X fail and
B/Y pass: the printed table is A: pass X, fail Y; B: pass Y, fail X; `anyFailed` is
true. -/
theorem validateClients_table_witness :
    diagonalMatrix.outcome = .returned (true, none) ∧
    diagonalMatrix.lists "A" = some (["X"], ["Y"]) ∧
    diagonalMatrix.lists "B" = some (["Y"], ["X"]) ∧
    ∃ table, diagonalMatrix.printed = some table ∧
      (∀ name, name ∉ [("A", "img-A"), ("B", "img-B")].map (fun x => x.1) →
        table name = none) ∧
      ∀ name ∈ [("A", "img-A"), ("B", "img-B")].map (fun x => x.1),
        ∃ row, table name = some row ∧
          (cellsOf name diagonalMatrix.cells).map (fun c => c.validator)
            = ((tableHost diagonalTable).rangeValidators name
                [("X", "img-X"), ("Y", "img-Y")]).map (fun v => v.1) ∧
          ((cellsOf name diagonalMatrix.cells).map (fun c => c.validator)).Perm
            ([("X", "img-X"), ("Y", "img-Y")].map (fun v => v.1)) ∧
          row "pass" = ((cellsOf name diagonalMatrix.cells).filter fun c => c.passed).map
            (fun c => c.validator) ∧
          row "fail" = ((cellsOf name diagonalMatrix.cells).filter fun c => !c.passed).map
            (fun c => c.failEntry) ∧
          (∀ k, k ≠ "pass" → k ≠ "fail" → row k = []) ∧
          (row "pass").length + (row "fail").length
            = [("X", "img-X"), ("Y", "img-Y")].length :=
  ⟨by decide, by decide, by decide,
    validateClients_table (tableHost diagonalTable) ":master" "." [] 1 ("", "") ("", "")
      ("", "") [("A", "img-A"), ("B", "img-B")] [("X", "img-X"), ("Y", "img-Y")] rfl rfl
      (by decide) (true, none) (by decide)⟩

/-- On the same matrix two of the four calls do not pass and `anyFailed` is true. -/
theorem validateClients_anyFailed_witness :
    diagonalMatrix.outcome = .returned (true, none) ∧
    diagonalMatrix.cells.map (fun c => (c.client, c.validator, c.passed))
      = [("A", "X", true), ("A", "Y", false), ("B", "Y", true), ("B", "X", false)] ∧
    (true = true ↔ ∃ c ∈ diagonalMatrix.cells, c.passed = false) :=
  ⟨by decide, by decide,
    (validateClients_anyFailed (tableHost diagonalTable) ":master" "." [] 1 ("", "")
      true none (by decide)).1⟩

/-- The matrix in which the validator container for B with X cannot be created: all four
cells are run, the failing one last, and it is recorded with its error text. -/
theorem validateClients_no_halt_witness :
    (∀ c ∈ brokenCellMatrix.cells, c.returned = true) ∧
    brokenCellMatrix.cells.map (fun c => (c.client, c.validator, c.outcome))
      = [("A", "X", .returned (true, none)), ("A", "Y", .returned (false, none)),
          ("B", "Y", .returned (true, none)),
          ("B", "X", .returned (false, some "no such image"))] ∧
    brokenCellMatrix.lists "B" = some (["Y"], ["X: no such image"]) ∧
    (∃ anyFailed, brokenCellMatrix.outcome = .returned (anyFailed, none)) ∧
    brokenCellMatrix.cells.map (fun c => (c.client, c.validator))
      = matrixCells (tableHost brokenCellTable).rangeValidators
          [("A", "img-A"), ("B", "img-B")] [("X", "img-X"), ("Y", "img-Y")] ∧
    (brokenCellMatrix.cells.map (fun c => (c.client, c.validator))).Perm
      (allCells [("A", "img-A"), ("B", "img-B")] [("X", "img-X"), ("Y", "img-Y")]) :=
  ⟨by decide, by decide, by decide,
    (validateClients_no_halt (tableHost brokenCellTable) ":master" "." [] 1 ("", "")
      ("", "") ("", "") [("A", "img-A"), ("B", "img-B")] [("X", "img-X"), ("Y", "img-Y")]
      rfl rfl (by decide)).1,
    (validateClients_no_halt (tableHost brokenCellTable) ":master" "." [] 1 ("", "")
      ("", "") ("", "") [("A", "img-A"), ("B", "img-B")] [("X", "img-X"), ("Y", "img-Y")]
      rfl rfl (by decide)).2.1,
    (validateClients_no_halt (tableHost brokenCellTable) ":master" "." [] 1 ("", "")
      ("", "") ("", "") [("A", "img-A"), ("B", "img-B")] [("X", "img-X"), ("Y", "img-Y")]
      rfl rfl (by decide)).2.2.1⟩

/-- C7, counterexample: every step of the pairing of A with X succeeds and the validator
container exits with code 7, yet `validate` returns fail with no error at all, and the
"fail" list of A holds the bare validator names: the code 7 is reported nowhere. -/
theorem validate_exit_code_not_reported :
    (∀ e ∈ (validate (tableEngine sevenTable) "img-A" "img-X" []
        (logdirOf "workspace/logs" "X" "A") 1 ("", "")).trace, e.stepFailed = false) ∧
    verdicts (validate (tableEngine sevenTable) "img-A" "img-X" []
        (logdirOf "workspace/logs" "X" "A") 1 ("", "")).trace = [.ok ⟨false, 7, ""⟩] ∧
    (validate (tableEngine sevenTable) "img-A" "img-X" []
        (logdirOf "workspace/logs" "X" "A") 1 ("", "")).outcome = .returned (false, none) ∧
    sevenMatrix.lists "A" = some ([], ["X", "Y"]) := by
  decide

/-- The cell A with X of the matrix in which every validator exits with code 7. -/
theorem validateClients_nonzero_exit_witness :
    sevenMatrix.outcome = .returned (true, none) ∧
    (∃ c ∈ sevenMatrix.cells, c.client = "A" ∧ c.validator = "X" ∧
      Event.inspectValidator "validator-img-X" (.ok ⟨false, 7, ""⟩) ∈ c.trace ∧
      (∀ e ∈ c.trace, e.stepFailed = false) ∧
      c.outcome = .returned (false, none) ∧ c.failEntry = c.validator ∧
      ∃ table row, sevenMatrix.printed = some table ∧
        table c.client = some row ∧ c.validator ∈ row "fail") :=
  ⟨by decide,
    sevenMatrix.cells.get ⟨0, by decide⟩, List.get_mem _ _ _, by decide, by decide, by decide,
    validateClients_nonzero_exit (tableHost sevenTable) ":master" "." [] 1 ("", "")
      ("", "") ("", "") [("A", "img-A"), ("B", "img-B")] [("X", "img-X"), ("Y", "img-Y")]
      rfl rfl (by decide) (true, none) (by decide)
      (sevenMatrix.cells.get ⟨0, by decide⟩) (List.get_mem _ _ _)
      "validator-img-X" ⟨false, 7, ""⟩ (by decide) (by decide)⟩

/-- The client that never opens its port and is found dead by the third inspection of the
loop: still polling after two rounds, "terminated unexpectedly" with a third. -/
theorem validate_terminated_witness :
    (terminatedRun 2).outcome = .polling ∧
    (terminatedRun 3).outcome = .returned (false, some "terminated unexpectedly") ∧
    (dials (terminatedRun 3).trace).length = 2 ∧
    (∀ a ∈ dials (terminatedRun 3).trace, a.2 = false) ∧
    (polls (terminatedRun 3).trace).length = 2 + 1 ∧
    (∀ image env r, Event.createValidator image env r ∉ (terminatedRun 3).trace) ∧
    ∃ pre c rc, (terminatedRun 3).trace
        = pre ++ [Event.inspectPoll "client-img-A" (.ok c),
            Event.closeWaiter "client-img-A", Event.removeContainer "client-img-A" rc] ∧
      c.running = false ∧
      ((probeEngine 2 false).inspectContainer "client-img-A"
        (pollState (probeEngine 2 false) "client-img-A" 1 2)).1 = .ok c :=
  ⟨(validate_terminated (probeEngine 2 false) "img-A" "img-X" []
      (logdirOf "workspace/logs" "X" "A") 0 2 ⟨"client-img-A"⟩ 0 0 1 ⟨true, 0, ""⟩
      rfl (by decide) rfl rfl (by decide) (by decide)).1 2 (by decide),
    (validate_terminated (probeEngine 2 false) "img-A" "img-X" []
      (logdirOf "workspace/logs" "X" "A") 0 2 ⟨"client-img-A"⟩ 0 0 1 ⟨true, 0, ""⟩
      rfl (by decide) rfl rfl (by decide) (by decide)).2.1 3 (by decide)⟩

/-- C10, counterexample: the first inspection of the client reports no address, the
inspection inside the readiness loop reports 172.17.0.2 and the connection to
172.17.0.2:8545 succeeds, yet the validator container is created with an empty
`HIVE_CLIENT_IP`, not with the address on which the connection succeeded. -/
theorem validate_client_ip_not_probed :
    polls lateAddressRun.trace = [.ok ⟨true, 0, "172.17.0.2"⟩] ∧
    dials lateAddressRun.trace = [("172.17.0.2:8545", true)] ∧
    validatorEnvs lateAddressRun.trace = [["HIVE_CLIENT_IP="]] ∧
    ["HIVE_CLIENT_IP="] ≠ ["HIVE_CLIENT_IP=" ++ "172.17.0.2"] := by
  decide

/-- The run in which the address is reported late: the validator gets the empty address
of the first inspection. -/
theorem validate_client_ip_witness :
    Event.createValidator "img-X" ["HIVE_CLIENT_IP="] (.ok ⟨"validator-img-X"⟩)
      ∈ lateAddressRun.trace ∧
    Event.inspectClient "client-img-A" (.ok ⟨true, 0, ""⟩) ∈ lateAddressRun.trace ∧
    ("img-X" = "img-X" ∧
      ∃ cc lcc rest, lateAddressRun.trace
          = clientStarted "img-A" "img-X" [] (logdirOf "workspace/logs" "X" "A") cc lcc ++ rest ∧
        ["HIVE_CLIENT_IP="] = ["HIVE_CLIENT_IP=" ++ lcc.ipAddress]) :=
  ⟨by decide, by decide,
    validate_client_ip (probeEngine 9 true) "img-A" "img-X" []
      (logdirOf "workspace/logs" "X" "A") 1 0 "img-X" ["HIVE_CLIENT_IP="]
      (.ok ⟨"validator-img-X"⟩) (by decide)⟩

end Hive
